import Mathlib

/-!
Verification of the goppstats OneFS partitioned-performance collector.

This file gives a shallow embedding, in Lean, of the parts of the Go source
that the verified properties concern:

* `backend.go`: the fixed stat-field list, the workload-type (overflow bucket)
  validation, the NFS export-id → path cache (`exportMap`) and the tag
  extraction `tagsForPPStat`;
* the Prometheus sink (`prometheus.go`): dataset bookkeeping
  (`CreateDataset` / `ClearDataset` / `UpdateDatasets`), the pull-collector
  metric store (`CreateSampleID`, `addSample`, `addMetricFamily`, `Expire`,
  `Collect`) and the write path `WritePPStats`;
* the session client's `Authenticate` retry/backoff loop (`papi.go`);
* the per-cluster orchestration loop `statsloop` (`main.go`): the unlimited
  read-retry loop and the bounded write-retry loop with their shared backoff
  timer.

Go maps are modelled as association lists with insert-replaces-existing-key
semantics; Go map iteration (whose order is unspecified) is modelled as
iteration in list order.  Machine floats carry stat values but are never
computed with (only stored and re-emitted), so they are modelled as `ℚ`.
Times are modelled as integer seconds.  HTTP calls are modelled as oracles
passed in as function arguments.
-/

/-! ## Byte-lexicographic string order (Go `sort.Strings`)

Go compares strings byte-wise; UTF-8 byte order coincides with code-point
order, so a code-point-wise lexicographic comparison is a faithful model.
Lean's built-in `String` order does not reduce in the kernel, hence this
explicit structural definition. -/

def lexLe : List Char → List Char → Bool
  | [], _ => true
  | _ :: _, [] => false
  | a :: as, b :: bs => if a < b then true else if b < a then false else lexLe as bs

/-- Go string ordering, as used by `sort.Strings` and `strings.Join` callers. -/
def strLe (a b : String) : Prop := lexLe a.data b.data = true

instance : DecidableRel strLe := fun a b => by unfold strLe; infer_instance

theorem lexLe_refl (a : List Char) : lexLe a a = true := by
  induction a with
  | nil => rfl
  | cons x xs ih => simp [lexLe, ih]

theorem lexLe_total (a b : List Char) : lexLe a b = true ∨ lexLe b a = true := by
  induction a generalizing b with
  | nil => left; rfl
  | cons x xs ih =>
    cases b with
    | nil => right; rfl
    | cons y ys =>
      rcases lt_trichotomy x y with h | h | h
      · left; simp [lexLe, h]
      · subst h
        rcases ih ys with h2 | h2
        · left; simp [lexLe, h2]
        · right; simp [lexLe, h2]
      · right; simp [lexLe, h]

theorem lexLe_antisymm {a b : List Char} (h1 : lexLe a b = true) (h2 : lexLe b a = true) :
    a = b := by
  induction a generalizing b with
  | nil =>
    cases b with
    | nil => rfl
    | cons y ys => simp [lexLe] at h2
  | cons x xs ih =>
    cases b with
    | nil => simp [lexLe] at h1
    | cons y ys =>
      rcases lt_trichotomy x y with h | h | h
      · simp [lexLe, h, asymm h] at h2
      · subst h
        simp only [lexLe, lt_irrefl, if_false] at h1 h2
        exact congrArg (x :: ·) (ih h1 h2)
      · simp [lexLe, h, asymm h] at h1

theorem lexLe_trans {a b c : List Char} (h1 : lexLe a b = true) (h2 : lexLe b c = true) :
    lexLe a c = true := by
  induction a generalizing b c with
  | nil => rfl
  | cons x xs ih =>
    cases b with
    | nil => simp [lexLe] at h1
    | cons y ys =>
      cases c with
      | nil => simp [lexLe] at h2
      | cons z zs =>
        rcases lt_trichotomy x y with hxy | hxy | hxy
        · rcases lt_trichotomy y z with hyz | hyz | hyz
          · simp [lexLe, lt_trans hxy hyz]
          · subst hyz; simp [lexLe, hxy]
          · simp [lexLe, hyz, asymm hyz] at h2
        · subst hxy
          simp only [lexLe, lt_irrefl, if_false] at h1
          rcases lt_trichotomy x z with hxz | hxz | hxz
          · simp [lexLe, hxz]
          · subst hxz
            simp only [lexLe, lt_irrefl, if_false] at h2 ⊢
            exact ih h1 h2
          · simp [lexLe, hxz, asymm hxz] at h2
        · simp [lexLe, hxy, asymm hxy] at h1

instance : IsTotal String strLe :=
  ⟨fun a b => lexLe_total a.data b.data⟩

instance : IsTrans String strLe :=
  ⟨fun _ _ _ h1 h2 => lexLe_trans h1 h2⟩

instance : IsAntisymm String strLe :=
  ⟨fun a b h1 h2 => by
    cases a; cases b
    exact congrArg String.mk (lexLe_antisymm h1 h2)⟩

/-! ## Association lists: the model of Go maps

`assocInsert` replaces the value when the key is present and appends
otherwise, so an association list built only through it has no duplicate
keys and its entry order is first-insertion order. -/

def assocFind {α β : Type} [DecidableEq α] : List (α × β) → α → Option β
  | [], _ => none
  | (k0, v) :: rest, k => if k0 = k then some v else assocFind rest k

def assocInsert {α β : Type} [DecidableEq α] : List (α × β) → α → β → List (α × β)
  | [], k, v => [(k, v)]
  | (k0, v0) :: rest, k, v =>
    if k0 = k then (k, v) :: rest else (k0, v0) :: assocInsert rest k v

def assocErase {α β : Type} [DecidableEq α] : List (α × β) → α → List (α × β)
  | [], _ => []
  | (k0, v0) :: rest, k => if k0 = k then rest else (k0, v0) :: assocErase rest k

/-- Go map read with the zero-value default for strings. -/
def tagGet (m : List (String × String)) (k : String) : String := (assocFind m k).getD ""

/-- Go map read with the zero-value default for integer counters. -/
def countGet (m : List (String × Int)) (k : String) : Int := (assocFind m k).getD 0

/-- Go `m[k] += d` (covering `m[k]++` and `m[k]--`) on a counter map. -/
def countAdd (m : List (String × Int)) (k : String) (d : Int) : List (String × Int) :=
  assocInsert m k (countGet m k + d)

theorem assocFind_insert {α β : Type} [DecidableEq α] (m : List (α × β)) (k k' : α) (v : β) :
    assocFind (assocInsert m k v) k' = if k = k' then some v else assocFind m k' := by
  induction m with
  | nil => simp [assocInsert, assocFind]
  | cons p rest ih =>
    obtain ⟨k0, v0⟩ := p
    by_cases h0 : k0 = k
    · subst h0
      by_cases h1 : k0 = k'
      · subst h1; simp [assocInsert, assocFind]
      · simp [assocInsert, assocFind, h1]
    · by_cases h1 : k0 = k'
      · subst h1
        have hkk : ¬ k = k0 := fun h => h0 h.symm
        simp [assocInsert, assocFind, h0, hkk]
      · simp [assocInsert, assocFind, h0, h1, ih]

theorem mem_keys_of_assocFind_isSome {α β : Type} [DecidableEq α]
    {m : List (α × β)} {k : α} (h : (assocFind m k).isSome) : k ∈ m.map Prod.fst := by
  induction m with
  | nil => simp [assocFind] at h
  | cons p rest ih =>
    obtain ⟨k0, v0⟩ := p
    by_cases h0 : k0 = k
    · subst h0; simp
    · simp only [assocFind, if_neg h0] at h
      simp [ih h]

theorem assocFind_isSome_of_mem_keys {α β : Type} [DecidableEq α]
    {m : List (α × β)} {k : α} (h : k ∈ m.map Prod.fst) : (assocFind m k).isSome := by
  induction m with
  | nil => simp at h
  | cons p rest ih =>
    obtain ⟨k0, v0⟩ := p
    by_cases h0 : k0 = k
    · subst h0; simp [assocFind]
    · simp only [List.map_cons, List.mem_cons] at h
      rcases h with h | h
      · exact absurd h.symm h0
      · simp [assocFind, if_neg h0, ih h]

theorem assocFind_eq_none_of_not_mem {α β : Type} [DecidableEq α]
    {m : List (α × β)} {k : α} (h : k ∉ m.map Prod.fst) : assocFind m k = none := by
  cases hfind : assocFind m k with
  | none => rfl
  | some v => exact absurd (mem_keys_of_assocFind_isSome (by simp [hfind])) h

theorem assocFind_erase {α β : Type} [DecidableEq α] (m : List (α × β)) (k k' : α)
    (hnd : (m.map Prod.fst).Nodup) :
    assocFind (assocErase m k) k' = if k = k' then none else assocFind m k' := by
  induction m with
  | nil => simp [assocErase, assocFind]
  | cons p rest ih =>
    obtain ⟨k0, v0⟩ := p
    simp only [List.map_cons, List.nodup_cons] at hnd
    by_cases h0 : k0 = k
    · subst h0
      simp only [assocErase, if_pos rfl]
      by_cases h1 : k0 = k'
      · subst h1
        simp only [if_pos rfl]
        exact assocFind_eq_none_of_not_mem hnd.1
      · simp [assocFind, h1]
    · by_cases h1 : k0 = k'
      · subst h1
        have hkk : ¬ k = k0 := fun h => h0 h.symm
        simp [assocErase, assocFind, h0, hkk]
      · simp [assocErase, assocFind, h0, h1, ih hnd.2]

theorem countGet_countAdd (m : List (String × Int)) (k k' : String) (d : Int) :
    countGet (countAdd m k d) k' = if k = k' then countGet m k' + d else countGet m k' := by
  unfold countGet countAdd
  rw [assocFind_insert]
  by_cases h : k = k'
  · subst h; simp [countGet]
  · simp [h]

theorem keys_assocInsert {α β : Type} [DecidableEq α] (m : List (α × β)) (k : α) (v : β) :
    (assocInsert m k v).map Prod.fst =
      if (assocFind m k).isSome then m.map Prod.fst else m.map Prod.fst ++ [k] := by
  induction m with
  | nil => simp [assocInsert, assocFind]
  | cons p rest ih =>
    obtain ⟨k0, v0⟩ := p
    by_cases h0 : k0 = k
    · subst h0; simp [assocInsert, assocFind]
    · simp [assocInsert, assocFind, h0, ih]
      by_cases hs : (assocFind rest k).isSome <;> simp [hs]

theorem length_assocInsert {α β : Type} [DecidableEq α] (m : List (α × β)) (k : α) (v : β) :
    (assocInsert m k v).length =
      if (assocFind m k).isSome then m.length else m.length + 1 := by
  have h := congrArg List.length (keys_assocInsert m k v)
  simp only [List.length_map] at h
  by_cases hs : (assocFind m k).isSome <;> simp [hs] at h <;> simp [hs, h]

theorem nodup_keys_assocInsert {α β : Type} [DecidableEq α]
    {m : List (α × β)} (hnd : (m.map Prod.fst).Nodup) (k : α) (v : β) :
    ((assocInsert m k v).map Prod.fst).Nodup := by
  rw [keys_assocInsert]
  by_cases hs : (assocFind m k).isSome
  · rw [if_pos hs]; exact hnd
  · rw [if_neg hs]
    rw [List.nodup_append]
    refine ⟨hnd, List.nodup_singleton k, ?_⟩
    intro a ha hb
    simp only [List.mem_singleton] at hb
    subst hb
    exact hs (assocFind_isSome_of_mem_keys ha)

/-! ## backend.go: fixed fields, workload types, export-id cache, tags -/

def F_BYTESIN : String := "bytes_in"

def F_BYTESOUT : String := "bytes_out"

def F_READS : String := "reads"

def F_WRITES : String := "writes"

def F_OPS : String := "ops"

def F_L2 : String := "l2"

def F_L3 : String := "l3"

def F_CPU : String := "cpu"

def F_LATREAD : String := "latency_read"

def F_LATWRITE : String := "latency_write"

def F_LATOTHER : String := "latency_other"

/-- The names of the performance statistics that partitioned performance collects. -/
def ppFixedFields : List String :=
  [F_BYTESIN, F_BYTESOUT, F_READS, F_WRITES, F_OPS, F_L2, F_L3, F_CPU,
   F_LATREAD, F_LATWRITE, F_LATOTHER]

def W_ADDITIONAL : String := "Additional"

def W_EXCLUDED : String := "Excluded"

def W_OVERACCOUNTED : String := "Overaccounted"

def W_SYSTEM : String := "System"

def W_UNKNOWN : String := "Unknown"

/-- The names of the 5 overflow buckets for any given dataset. -/
def workloadTypes : List String :=
  [W_ADDITIONAL, W_EXCLUDED, W_OVERACCOUNTED, W_SYSTEM, W_UNKNOWN]

/-- Validates that a workload_type string is one of the 5 overflow buckets. -/
def isValidWorkloadType (t : String) : Bool :=
  t == W_ADDITIONAL || t == W_EXCLUDED || t == W_OVERACCOUNTED ||
    t == W_SYSTEM || t == W_UNKNOWN

/-- Modelled from the spec: the pinned-workload marker string `W_PINNED`.  Its
defining constant is not among the files under src/ (only its uses in the
Prometheus write path are); the spec describes it as the "pinned" marker, a
workload-type value distinct from the five aggregation buckets. -/
def W_PINNED : String := "Pinned"

/-- A single workload entry returned by the partitioned-performance API.
The eleven required float64 metrics are modelled as `ℚ` (they are stored and
re-emitted, never computed with); optional criteria are `Option`s, matching
the pointer fields of the Go struct. -/
structure PPStatResult where
  CPU : ℚ := 0
  Ops : ℚ := 0
  Reads : ℚ := 0
  Writes : ℚ := 0
  BytesOut : ℚ := 0
  BytesIn : ℚ := 0
  L2 : ℚ := 0
  L3 : ℚ := 0
  LatencyRead : ℚ := 0
  LatencyWrite : ℚ := 0
  LatencyOther : ℚ := 0
  Node : Int := 0
  UnixTime : Int := 0
  Username : Option String := none
  Protocol : Option String := none
  ShareName : Option String := none
  JobType : Option String := none
  GroupName : Option String := none
  Path : Option String := none
  ZoneName : Option String := none
  DomainID : Option String := none
  ExportID : Option Int := none
  UserID : Option Int := none
  LocalAddress : Option String := none
  UserSid : Option String := none
  ErrorString : Option String := none
  RemoteAddress : Option String := none
  WorkloadType : Option String := none
  GroupSid : Option String := none
  RemoteName : Option String := none
  SystemName : Option String := none
  ZoneID : Option Int := none
  WorkloadID : Option Int := none
  LocalName : Option String := none
  GroupID : Option Int := none
deriving DecidableEq

/-- Creates and populates the fixed/required fields for every partitioned
performance stat result.  The list literal is the result of the Go code's
eleven map inserts (all keys distinct), in program order. -/
def fieldsForPPStat (ppstat : PPStatResult) : List (String × ℚ) :=
  [(F_BYTESIN, ppstat.BytesIn), (F_BYTESOUT, ppstat.BytesOut),
   (F_READS, ppstat.Reads), (F_WRITES, ppstat.Writes), (F_OPS, ppstat.Ops),
   (F_L2, ppstat.L2), (F_L3, ppstat.L3), (F_CPU, ppstat.CPU),
   (F_LATREAD, ppstat.LatencyRead), (F_LATWRITE, ppstat.LatencyWrite),
   (F_LATOTHER, ppstat.LatencyOther)]

/-- A map of NFS export ids to their corresponding NFS export paths.
In Go the `pathById` map is allocated only when enabled; reads from the nil
map report not-found, exactly like reads from the empty list here. -/
structure exportMap where
  enabled : Bool
  pathById : List (Int × String)
deriving DecidableEq

/-- Creates a map of NFS export ids to their corresponding NFS export paths. -/
def newExportMap (enabled : Bool) : exportMap :=
  { enabled := enabled, pathById := [] }

/-- Dissects the PPStatResult and converts it to the tags that match the
original workload definition.  `getExportPathById` is the oracle standing for
the `cluster.GetExportPathById` HTTP call; the second component of the result
records the export ids that were fetched through it during this call.  Note
that the Go function reads `exports.pathById` but never writes to it, so no
updated `exportMap` is produced. -/
def tagsForPPStat (ppstat : PPStatResult)
    (getExportPathById : Int → Except String String) (exports : exportMap) :
    List (String × String) × List Int :=
  let tags : List (String × String) := []
  -- NFS export id
  let (tags, fetched) :=
    match ppstat.ExportID with
    | none => (tags, ([] : List Int))
    | some id =>
      let tags := assocInsert tags "export_id" (toString id)
      if exports.enabled then
        match assocFind exports.pathById id with
        | none =>
          let path :=
            match getExportPathById id with
            | .ok p => p
            | .error _ => "unknown (lookup failed)"
          (assocInsert tags "export_path" path, [id])
        | some path => (assocInsert tags "export_path" path, [])
      else (tags, [])
  -- associated group identity
  let tags :=
    match ppstat.GroupName, ppstat.GroupID, ppstat.GroupSid with
    | some g, _, _ => assocInsert tags "groupname" ("GID:" ++ g)
    | none, some gid, _ => assocInsert tags "groupname" ("GID:" ++ toString gid)
    | none, none, some gsid => assocInsert tags "groupname" ("SID:" ++ gsid)
    | none, none, none => tags
  -- local network name/address
  let tags :=
    match ppstat.LocalName, ppstat.LocalAddress with
    | some n, _ => assocInsert tags "local_address" n
    | none, some a => assocInsert tags "local_address" a
    | none, none => tags
  -- pathname filter
  let tags :=
    match ppstat.Path with
    | some p => assocInsert tags "path" p
    | none => tags
  -- protocol
  let tags :=
    match ppstat.Protocol with
    | some p => assocInsert tags "protocol" p
    | none => tags
  -- remote network name/address
  let tags :=
    match ppstat.RemoteName, ppstat.RemoteAddress with
    | some n, _ => assocInsert tags "remote_address" n
    | none, some a => assocInsert tags "remote_address" a
    | none, none => tags
  -- SMB share name
  let tags :=
    match ppstat.ShareName with
    | some s => assocInsert tags "share_name" s
    | none => tags
  -- associated user identity
  let tags :=
    match ppstat.Username, ppstat.UserID, ppstat.UserSid with
    | some u, _, _ => assocInsert tags "username" u
    | none, some uid, _ => assocInsert tags "username" ("UID:" ++ toString uid)
    | none, none, some usid => assocInsert tags "username" ("SID:" ++ usid)
    | none, none, none => tags
  -- OneFS access zone
  let tags :=
    match ppstat.ZoneName, ppstat.ZoneID with
    | some z, _ => assocInsert tags "zone_name" z
    | none, some zid => assocInsert tags "zone_name" ("zone:" ++ toString zid)
    | none, none => tags
  -- workload type (one of the five extra buckets if non-null)
  let tags :=
    match ppstat.WorkloadType with
    | some w => assocInsert tags "workload_type" w
    | none => tags
  -- System dataset process/service name
  let tags :=
    match ppstat.SystemName with
    | some s => assocInsert tags "system_name" s
    | none => tags
  -- System dataset job-engine job tag
  let tags :=
    match ppstat.JobType with
    | some j => assocInsert tags "job_type" j
    | none => tags
  let tags :=
    match ppstat.DomainID with
    | some d => assocInsert tags "domain_id" d
    | none => tags
  -- performance workload id
  let tags :=
    match ppstat.WorkloadID with
    | some w => assocInsert tags "workload_id" (toString w)
    | none => tags
  (tags, fetched)

/-! ## papi.go: dataset metadata -/

/-- For OneFS releases up to and including 9.6, the API supports the System
dataset (0) and up to four user-defined datasets. -/
def MaxDsId : Nat := 4

/-- Metadata for a single partitioned-performance dataset (the fields the
verified code paths read; `FilterCount`/`Filters`/`WorkloadCount` are never
consulted by them). -/
structure DsInfoEntry where
  CreationTime : Int := 0
  Id : Int := 0
  Metrics : List String := []
  Name : String := ""
  StatKey : String := ""
deriving DecidableEq

/-! ## prometheus.go: dataset bookkeeping -/

def NAMESPACE : String := "isilon"

def BASEPPNAME : String := "ppstat"

/-- Prometheus metadata for one partitioned-performance stat in a dataset. -/
structure promMetric where
  name : String := ""
  description : String := ""
  labels : List String := []
deriving DecidableEq

/-- The dataset and related Prometheus metric metadata. -/
structure promDsInternal where
  ds : DsInfoEntry := {}
  basename : String := ""
  metrics : List (String × promMetric) := []
  labels : List String := []
deriving DecidableEq

def makePromDataset (ds : DsInfoEntry) : promDsInternal :=
  { ds := ds, metrics := [] }

/-- Builds the per-field Prometheus metric metadata for a dataset.  In Go,
`makePromMetrics` works on a by-value copy of the stored `promDsInternal`:
only the shared `metrics` map and — through the in-place `sort.Strings` on the
shared `Metrics` slice — the sorted metric list persist in the stored entry;
the local copy's `basename` and `labels` assignments are lost when the
function returns, so the stored entry keeps its zero values for them. -/
def makePromMetrics (dsi : promDsInternal) : promDsInternal :=
  let metricNames := dsi.ds.Metrics.insertionSort strLe
  let basename :=
    metricNames.foldl (fun b m => b ++ "_" ++ m) (NAMESPACE ++ "_" ++ BASEPPNAME)
  let labels := ["cluster", "node"]
  -- overflow buckets first: these do not have the dataset breakout
  let overflow :=
    workloadTypes.foldl (fun acc wb =>
      ppFixedFields.foldl (fun acc field =>
        let fieldKey := wb ++ "_" ++ field
        assocInsert acc fieldKey
          { name := basename ++ "_" ++ fieldKey,
            description := "pp dataset " ++ toString dsi.ds.Id ++
              ", overflow bucket " ++ wb ++ ", metric " ++ field,
            labels := labels }) acc) dsi.metrics
  let dsLabels := labels ++ metricNames
  -- the regular buckets
  let metrics :=
    ppFixedFields.foldl (fun acc field =>
      assocInsert acc field
        { name := basename ++ "_" ++ field,
          description := "pp dataset " ++ toString dsi.ds.Id ++
            ", metric " ++ field,
          labels := dsLabels }) overflow
  { dsi with ds := { dsi.ds with Metrics := metricNames }, metrics := metrics }

/-- The `export_id` adjustment at the top of `CreateDataset`: when export-id
lookup is enabled, one `"export_path"` is appended per occurrence of
`"export_id"` in the metric list (the Go `range` iterates over the original
length, so the appended entries are not themselves scanned). -/
def exportAdjustedEntry (enabled : Bool) (entry : DsInfoEntry) : DsInfoEntry :=
  if enabled then
    { entry with
      Metrics := entry.Metrics ++
        List.replicate (entry.Metrics.count "export_id") "export_path" }
  else entry

/-- The map from dataset id to its Prometheus-specific information. -/
abbrev promDsMap := List (Int × promDsInternal)

/-- Assigns the provided dataset to the map and creates the associated
Prometheus metric metadata. -/
def CreateDataset (enabled : Bool) (dsm : promDsMap) (id : Int)
    (entry : DsInfoEntry) : promDsMap :=
  assocInsert dsm id (makePromMetrics (makePromDataset (exportAdjustedEntry enabled entry)))

/-- Removes the dataset with the given id. -/
def ClearDataset (dsm : promDsMap) (id : Int) : promDsMap :=
  assocErase dsm id

/-- A schema event: a call to `CreateDataset` (create) or `ClearDataset`
(clear) made by the schema synchronizer. -/
inductive DsEvent
  | create (id : Int)
  | clear (id : Int)
deriving DecidableEq

/-- One iteration of `UpdateDatasets`' regular-call comparison loop, for a
single dataset id slot. -/
def syncStep (enabled : Bool) (nsdMap : List (Int × DsInfoEntry))
    (acc : promDsMap × List DsEvent) (id : Int) : promDsMap × List DsEvent :=
  let (dsm, evs) := acc
  match assocFind dsm id with
  | some cur =>
    match assocFind nsdMap id with
    | none =>
      -- dataset has been deleted
      (ClearDataset dsm id, evs ++ [.clear id])
    | some new =>
      if cur.ds.CreationTime = new.CreationTime then
        -- dataset creation time matches; dataset has not changed
        (dsm, evs)
      else
        -- delete old entry, create new
        (CreateDataset enabled (ClearDataset dsm id) id new,
         evs ++ [.clear id, .create id])
  | none =>
    match assocFind nsdMap id with
    | none => (dsm, evs)
    | some new =>
      -- new entry so populate it
      (CreateDataset enabled dsm id new, evs ++ [.create id])

/-- The dataset-id slots scanned by the regular-call loop: `1 .. MaxDsId`
(dataset 0, the System dataset, is assumed immutable and skipped). -/
def dsIdRange : List Int := (List.range' 1 MaxDsId).map (fun n => (n : Int))

/-- Updates the back-end view of the current dataset definitions, returning
the new map and the schema events (CreateDataset/ClearDataset calls) emitted.
`none` as first argument models the nil map of the first call. -/
def UpdateDatasets (enabled : Bool) (dsm? : Option promDsMap)
    (datasets : List DsInfoEntry) : promDsMap × List DsEvent :=
  match dsm? with
  | none =>
    -- first time through: set up the maps for every dataset in the list
    datasets.foldl
      (fun (acc : promDsMap × List DsEvent) ds =>
        (CreateDataset enabled acc.1 ds.Id ds, acc.2 ++ [.create ds.Id]))
      ([], [])
  | some dsm =>
    -- regular call: compare each possible slot to what we currently have
    let nsdMap := datasets.foldl (fun m v => assocInsert m v.Id v) []
    dsIdRange.foldl (syncStep enabled nsdMap) (dsm, [])

/-! ## prometheus.go: the pull-collector metric store -/

/-- The current value of a series. -/
structure Sample where
  Labels : List (String × String) := []
  Value : ℚ := 0
  Timestamp : Int := 0
  Expiration : Int := 0
deriving DecidableEq

/-- The data required to build valid Prometheus metrics. -/
structure MetricFamily where
  Samples : List (String × Sample) := []
  LabelSet : List (String × Int) := []
  Desc : String := ""
deriving DecidableEq

/-- Creates a SampleID from the tags of a metric: formats each pair as
`key=value`, sorts, and joins with `,`. -/
def CreateSampleID (tags : List (String × String)) : String :=
  String.intercalate ","
    (((tags.map (fun p => p.1 ++ "=" ++ p.2)).insertionSort strLe))

/-- Upserts a sample into a family: bumps the per-label-key usage counter for
every key this sample carries, then stores the sample under its id. -/
def addSample (fam : MetricFamily) (sample : Sample) (sampleID : String) :
    MetricFamily :=
  { fam with
    LabelSet := sample.Labels.foldl (fun ls p => countAdd ls p.1 1) fam.LabelSet,
    Samples := assocInsert fam.Samples sampleID sample }

/-- The whole metric store: family name → family. -/
abbrev FamMap := List (String × MetricFamily)

/-- Adds a sample to the named family, creating the family (with the given
description) if it does not exist yet. -/
def addMetricFamily (fams : FamMap) (sample : Sample) (mname desc : String)
    (sampleID : String) : FamMap :=
  match assocFind fams mname with
  | some fam => assocInsert fams mname (addSample fam sample sampleID)
  | none =>
    assocInsert fams mname
      (addSample { Samples := [], LabelSet := [], Desc := desc } sample sampleID)

/-- Removes the expired samples of one family and decrements their labels'
usage counts. -/
def expireFamily (now : Int) (fam : MetricFamily) : MetricFamily :=
  let expired := fam.Samples.filter (fun p => decide (now > p.2.Expiration))
  { fam with
    Samples := fam.Samples.filter (fun p => decide (¬ now > p.2.Expiration)),
    LabelSet :=
      expired.foldl
        (fun ls p => p.2.Labels.foldl (fun ls q => countAdd ls q.1 (-1)) ls)
        fam.LabelSet }

/-- Removes samples that have expired; a family whose sample map becomes empty
through such a removal is deleted from the store (a family that was already
empty when `Expire` ran is kept, mirroring the Go loop, in which the deletion
check runs only after deleting a sample). -/
def Expire (now : Int) (fams : FamMap) : FamMap :=
  (fams.map (fun p => (p.1, p.2, expireFamily now p.2))).filterMap
    (fun q =>
      if q.2.2.Samples.isEmpty && !q.2.1.Samples.isEmpty then none
      else some (q.1, q.2.2))

/-- One exposition record as produced by `Collect` (a `prometheus.Metric`
built by `NewConstMetric` plus `NewMetricWithTimestamp`). -/
structure PromRecord where
  name : String
  desc : String
  labelNames : List String
  labelValues : List String
  value : ℚ
  timestamp : Int
deriving DecidableEq

/-- The records one family contributes to a scrape: the exposed label keys are
those with positive usage count; each sample yields one record, reading its
own labels and the empty string for any exposed key it lacks. -/
def familyRecords (name : String) (fam : MetricFamily) : List PromRecord :=
  let labelNames := (fam.LabelSet.filter (fun p => decide (0 < p.2))).map Prod.fst
  fam.Samples.map (fun p =>
    { name := name
      desc := fam.Desc
      labelNames := labelNames
      labelValues := labelNames.map (fun l => tagGet p.2.Labels l)
      value := p.2.Value
      timestamp := p.2.Timestamp })

/-- The scrape entry point: first expires, then emits the records of every
remaining family.  Returns the post-expiry store and the emitted records. -/
def Collect (now : Int) (fams : FamMap) : FamMap × List PromRecord :=
  let st := Expire now fams
  (st, st.foldr (fun p acc => familyRecords p.1 p.2 ++ acc) [])

/-! ## prometheus.go: the write path -/

/-- The state of the Prometheus sink that the write path touches. -/
structure PrometheusSink where
  clusterName : String := ""
  exports : exportMap := newExportMap false
  dsm : promDsMap := []
  fam : FamMap := []
deriving DecidableEq

/-- The labels attached to the samples of one stat: `cluster` and `node`
always; for a regular or pinned stat (workload type absent or the pinned
marker) additionally the dataset's declared metric tags and the boolean
`pinned` label.  A valid overflow-bucket stat gets no further labels. -/
def statLabels (clusterName : String) (node : Int) (dsMetrics : List String)
    (tags : List (String × String)) (workloadType : Option String) :
    List (String × String) :=
  let base := assocInsert (assocInsert [] "cluster" clusterName) "node" (toString node)
  if workloadType ≠ none ∧ workloadType ≠ some W_PINNED then base
  else
    let withMetrics :=
      dsMetrics.foldl (fun m label => assocInsert m label (tagGet tags label)) base
    assocInsert withMetrics "pinned"
      (if workloadType = some W_PINNED then "true" else "false")

/-- The per-field inner loop of `WritePPStats`: one sample is added per fixed
field, under the field's (or `bucket_field`'s) family name.  The required
fields are always present in `fieldMap` as float64, so the Go type assertion
cannot fail on this path; the `getD 0` default is dead code standing in for
the Go panic branch. -/
def recordFields (now : Int) (dsi : promDsInternal) (labels : List (String × String))
    (fieldMap : List (String × ℚ)) (sampleID : String)
    (workloadType : Option String) (unixTime : Int) (fams : FamMap) : FamMap :=
  ppFixedFields.foldl (fun fams field =>
    let fieldKey :=
      match workloadType with
      | some w => if w ≠ W_PINNED then w ++ "_" ++ field else field
      | none => field
    let pm := (assocFind dsi.metrics fieldKey).getD {}
    let value := (assocFind fieldMap field).getD 0
    addMetricFamily fams
      { Labels := labels, Value := value, Timestamp := unixTime,
        Expiration := now + 30 }
      pm.name pm.description sampleID) fams

/-- Processing of a single stat inside `WritePPStats`: compute fields, tags
(with possible export-id fetches), the sample id and labels; skip the stat
entirely (recording nothing) when its workload type is present, not the
pinned marker, and not a valid overflow bucket. -/
def writeStatStep (getExportPathById : Int → Except String String) (now : Int)
    (clusterName : String) (exports : exportMap) (dsi : promDsInternal)
    (acc : FamMap × List Int) (ppstat : PPStatResult) : FamMap × List Int :=
  let fieldMap := fieldsForPPStat ppstat
  let (tags, fetched) := tagsForPPStat ppstat getExportPathById exports
  let sampleID := CreateSampleID tags
  let fetchedAll := acc.2 ++ fetched
  let skip : Bool :=
    match ppstat.WorkloadType with
    | some w => (w != W_PINNED) && !(isValidWorkloadType w)
    | none => false
  if skip then (acc.1, fetchedAll)
  else
    let labels := statLabels clusterName ppstat.Node dsi.ds.Metrics tags ppstat.WorkloadType
    (recordFields now dsi labels fieldMap sampleID ppstat.WorkloadType ppstat.UnixTime acc.1,
     fetchedAll)

/-- Takes an array of stat results and writes them into the metric store.
Always returns `none` for the error (the Go function ends in `return nil`);
additionally reports the export ids fetched through the API during the call.
The sink's `exports` cache is returned as part of the sink unchanged: no code
path in the Go source writes to `exports.pathById`. -/
def WritePPStats (getExportPathById : Int → Except String String) (now : Int)
    (s : PrometheusSink) (ds : DsInfoEntry) (ppstats : List PPStatResult) :
    PrometheusSink × List Int × Option String :=
  let dsi := (assocFind s.dsm ds.Id).getD {}
  let (fams, fetched) :=
    ppstats.foldl
      (writeStatStep getExportPathById now s.clusterName s.exports dsi)
      (s.fam, [])
  ({ s with fam := fams }, fetched, none)

/-! ## papi.go: the `Authenticate` retry/backoff loop -/

/-- Clamp retry timeout to 30 minutes. -/
def maxTimeoutSecs : Nat := 1800

/-- One backoff update of `Authenticate`: `retrySecs *= 2`, clamped to
`maxTimeoutSecs`. -/
def authBackoffStep (r : Nat) : Nat :=
  if r * 2 > maxTimeoutSecs then maxTimeoutSecs else r * 2

/-- The retry loop of `Authenticate`.  `outcome i = true` means the `i`-th
POST attempt gets a response; `fuel` is the number of attempts the loop may
still make (`maxRetries - i + 1` in the Go loop, whose index starts at 1);
`r` is the current `retrySecs`.  Returns the index of the successful attempt
(or `none` when the attempts are exhausted, the Go "max retries exceeded"
error) together with the list of sleeps performed, in order.  Note that the
loop sleeps after every failure, including the last one. -/
def authLoop (outcome : Nat → Bool) : Nat → Nat → Nat → Option Nat × List Nat
  | _, _, 0 => (none, [])
  | i, r, fuel + 1 =>
    if outcome i then (some i, [])
    else
      let rest := authLoop outcome (i + 1) (authBackoffStep r) fuel
      (rest.1, r :: rest.2)

/-- `Authenticate`'s retry loop with its initial state: attempt index 1,
`retrySecs = 1`, at most `m` attempts. -/
def AuthenticateRetries (outcome : Nat → Bool) (m : Nat) : Option Nat × List Nat :=
  authLoop outcome 1 1 m

/-- Modelled from the spec: the configuration layer (config.go, which is not
among the files under src/) delivers the configured retry ceiling to the
session client; a configured ceiling ≤ 0 means unlimited retries (`none`),
and a positive ceiling bounds the number of attempts. -/
def effectiveRetryCeiling (c : Int) : Option Nat :=
  if c ≤ 0 then none else some c.toNat

/-! ## main.go: the statsloop per-cycle retry logic -/

/-- `maxRetryTime` of `statsloop`: 1280 seconds. -/
def maxRetryTime : Nat := 1280

/-- One backoff update of the statsloop loops: the timer doubles only while
it is still below `maxRetryTime`. -/
def cycleBackoffStep (r : Nat) : Nat :=
  if r < maxRetryTime then r * 2 else r

/-- The unlimited read-retry loop around `GetPPStats` for one dataset:
given the current shared `retryTime` and the number of failed fetch attempts
before the first success, returns the sleeps performed and the final
`retryTime`.  The loop has no exit other than a successful fetch. -/
def readRetryLoop (r : Nat) : Nat → List Nat × Nat
  | 0 => ([], r)
  | nFails + 1 =>
    let rest := readRetryLoop (cycleBackoffStep r) nFails
    (r :: rest.1, rest.2)

/-- Per-cycle write-retry configuration from the global config. -/
structure CycleGc where
  ProcessorRetryIntvl : Nat
  ProcessorMaxRetries : Nat
deriving DecidableEq

/-- The bounded write-retry loop body: attempt `i` succeeds iff `wFails < i`;
on failure sleep the current `retryTime` and double it (below the cap);
`fuel` is the number of attempts left.  Returns success flag, sleeps and the
final `retryTime`.  Reached only with `fuel ≥ 1` (see `writeRetry`). -/
def writeLoop (wFails : Nat) : Nat → Nat → Nat → Bool × List Nat × Nat
  | _, r, 0 => (false, [], r)
  | i, r, fuel + 1 =>
    if wFails < i then (true, [], r)
    else
      let rest := writeLoop wFails (i + 1) (cycleBackoffStep r) fuel
      (rest.1, r :: rest.2.1, rest.2.2)

/-- The write phase for one dataset: `retryTime` is reset to the configured
`ProcessorRetryIntvl` before the first attempt; with `ProcessorMaxRetries = 0`
the Go loop body never runs and `err` still holds the `nil` of the successful
preceding fetch, so the phase trivially "succeeds" without writing. -/
def writeRetry (gc : CycleGc) (wFails : Nat) : Bool × List Nat × Nat :=
  if gc.ProcessorMaxRetries = 0 then (true, [], gc.ProcessorRetryIntvl)
  else writeLoop wFails 1 gc.ProcessorRetryIntvl gc.ProcessorMaxRetries

/-- The per-dataset portion of one `statsloop` cycle.  Each dataset is given
as `(rFails, wFails)`: the number of failed fetches before its fetch succeeds
and the number of failed writes before its write succeeds.  The shared
`retryTime` is threaded through: the read loop continues from whatever value
the previous dataset's write phase left (the read loop's own final value is
then overwritten by the write phase's reset).  Returns, per dataset processed,
its read sleeps and write sleeps, plus `true` iff the cycle was aborted by
write-retry exhaustion (a read failure can never abort it). -/
def cycleDatasets (gc : CycleGc) : Nat → List (Nat × Nat) →
    List (List Nat × List Nat) × Bool
  | _, [] => ([], false)
  | r, (rFails, wFails) :: rest =>
    let read := readRetryLoop r rFails
    let write := writeRetry gc wFails
    if write.1 then
      let tail := cycleDatasets gc write.2.2 rest
      ((read.1, write.2.1) :: tail.1, tail.2)
    else
      ([(read.1, write.2.1)], true)

/-- One cycle's dataset processing starts with `retryTime := 10` seconds. -/
def runCycle (gc : CycleGc) (dss : List (Nat × Nat)) :
    List (List Nat × List Nat) × Bool :=
  cycleDatasets gc 10 dss

/-! ## Claim C7: fingerprint determinism / order independence -/

/-- Claim C7: the label-set fingerprint is deterministic and
insertion-order-independent: any two label maps holding the same key-value
pairs (in any order) produce the same fingerprint, which `CreateSampleID`
computes by sorting the `key=value` pairs and joining them with the fixed
delimiter `,`. -/
theorem createSampleID_perm_invariant (t1 t2 : List (String × String))
    (h : t1.Perm t2) : CreateSampleID t1 = CreateSampleID t2 := by
  unfold CreateSampleID
  congr 1
  have hmap :
      (t1.map fun p => p.1 ++ "=" ++ p.2).Perm (t2.map fun p => p.1 ++ "=" ++ p.2) :=
    h.map _
  have hperm :
      ((t1.map fun p => p.1 ++ "=" ++ p.2).insertionSort strLe).Perm
        ((t2.map fun p => p.1 ++ "=" ++ p.2).insertionSort strLe) :=
    ((List.perm_insertionSort _ _).trans hmap).trans
      (List.perm_insertionSort _ _).symm
  exact List.eq_of_perm_of_sorted hperm
    (List.sorted_insertionSort _ _) (List.sorted_insertionSort _ _)

/-- Witness for C7 at a concrete permuted pair of label maps. -/
theorem createSampleID_perm_invariant_witness :
    ([("node", "2"), ("cluster", "c1")] : List (String × String)).Perm
        [("cluster", "c1"), ("node", "2")] ∧
      CreateSampleID [("node", "2"), ("cluster", "c1")] =
        CreateSampleID [("cluster", "c1"), ("node", "2")] :=
  ⟨by decide,
   createSampleID_perm_invariant [("node", "2"), ("cluster", "c1")]
     [("cluster", "c1"), ("node", "2")] (by decide)⟩

/-! ## Claim C10: invalid workload types are skipped, not fatal -/

/-- Claim C10: a sample whose workload type is present but neither the pinned
marker nor one of the five aggregation buckets is silently skipped by the
pull collector's write path: nothing is recorded into the metric store for
it, and the write still returns success (nil error). -/
theorem writePPStats_skips_invalid_workload (getE : Int → Except String String)
    (now : Int) (s : PrometheusSink) (ds : DsInfoEntry) (stat : PPStatResult)
    (w : String) (hw : stat.WorkloadType = some w) (hp : w ≠ W_PINNED)
    (hv : isValidWorkloadType w = false) :
    (WritePPStats getE now s ds [stat]).1.fam = s.fam ∧
      (WritePPStats getE now s ds [stat]).2.2 = none := by
  refine ⟨?_, rfl⟩
  unfold WritePPStats
  simp only [List.foldl_cons, List.foldl_nil]
  unfold writeStatStep
  simp [hw, hp, hv]

/-- Witness for C10 at a concrete invalid workload type. -/
theorem writePPStats_skips_invalid_workload_witness :
    ({ WorkloadType := some "Bogus" } : PPStatResult).WorkloadType = some "Bogus" ∧
      "Bogus" ≠ W_PINNED ∧ isValidWorkloadType "Bogus" = false ∧
      (WritePPStats (fun _ => .error "down") 7 { clusterName := "c" } {}
          [{ WorkloadType := some "Bogus" }]).1.fam = [] ∧
      (WritePPStats (fun _ => .error "down") 7 { clusterName := "c" } {}
          [{ WorkloadType := some "Bogus" }]).2.2 = none := by
  refine ⟨rfl, by decide, by decide, ?_, ?_⟩
  · exact (writePPStats_skips_invalid_workload (fun _ => .error "down") 7
      { clusterName := "c" } {} { WorkloadType := some "Bogus" } "Bogus" rfl
      (by decide) (by decide)).1
  · exact (writePPStats_skips_invalid_workload (fun _ => .error "down") 7
      { clusterName := "c" } {} { WorkloadType := some "Bogus" } "Bogus" rfl
      (by decide) (by decide)).2

/-! ## Claim C1: the export-path cache is in fact never populated -/

/-- Claim C1 (refuted; code bug): with export-id lookup enabled, the code
looks the id up in `exports.pathById` and calls the API on a miss, but no
code path ever stores the fetched path into the cache, so the cache stays
empty and every sample carrying the id triggers a fresh API fetch.  Here two
successive write calls, each with one sample carrying export id 1, both fetch
id 1 through the API, and the cache is still empty afterwards. -/
theorem exportPathCache_never_populated :
    (let oracle : Int → Except String String := fun _ => .ok "/ifs/data"
     let sink : PrometheusSink := { clusterName := "c1", exports := newExportMap true }
     let stat : PPStatResult := { ExportID := some 1 }
     let r1 := WritePPStats oracle 0 sink {} [stat]
     let r2 := WritePPStats oracle 0 r1.1 {} [stat]
     r1.2.1 = [1] ∧ r2.2.1 = [1] ∧
       r1.1.exports.pathById = [] ∧ r2.1.exports.pathById = []) := by
  decide

/-! ## Claim C2: schema-sync create events -/

/-- Names the dataset id an event concerns. -/
def DsEvent.dsid : DsEvent → Int
  | .create i => i
  | .clear i => i

/-- Counterexample to claim C2 as stated: on the first synchronizer call with
no prior state, a dataset list containing the System dataset (id 0) produces
a create event for id 0. -/
theorem updateDatasets_id0_create_counterexample :
    DsEvent.create 0 ∈
      (UpdateDatasets false none [{ Id := 0, Name := "System" }]).2 := by
  decide

theorem updateDatasets_first_events_aux (enabled : Bool)
    (datasets : List DsInfoEntry) (dsm : promDsMap) (evs : List DsEvent) :
    (datasets.foldl
      (fun (acc : promDsMap × List DsEvent) ds =>
        (CreateDataset enabled acc.1 ds.Id ds, acc.2 ++ [.create ds.Id]))
      (dsm, evs)).2 = evs ++ datasets.map (fun d => DsEvent.create d.Id) := by
  induction datasets generalizing dsm evs with
  | nil => simp
  | cons d rest ih => simp [ih]

theorem assocFind_erase_ne {α β : Type} [DecidableEq α] (m : List (α × β))
    (k k' : α) (h : k ≠ k') :
    assocFind (assocErase m k) k' = assocFind m k' := by
  induction m with
  | nil => simp [assocErase]
  | cons p rest ih =>
    obtain ⟨k0, v0⟩ := p
    by_cases h0 : k0 = k
    · subst h0
      have : ¬ k0 = k' := h
      simp [assocErase, assocFind, this]
    · by_cases h1 : k0 = k'
      · subst h1
        simp [assocErase, assocFind, h0]
      · simp [assocErase, assocFind, h0, h1, ih]

theorem syncStep_events (enabled : Bool) (nsdMap : List (Int × DsInfoEntry))
    (acc : promDsMap × List DsEvent) (id : Int) :
    ∃ tail, (syncStep enabled nsdMap acc id).2 = acc.2 ++ tail ∧
      ∀ e ∈ tail, e.dsid = id := by
  rcases acc with ⟨dsm, evs⟩
  unfold syncStep
  cases h1 : assocFind dsm id with
  | some cur =>
    cases h2 : assocFind nsdMap id with
    | none =>
      refine ⟨[.clear id], by simp [h1, h2], ?_⟩
      intro e he
      simp only [List.mem_singleton] at he
      subst he; rfl
    | some new =>
      by_cases h : cur.ds.CreationTime = new.CreationTime
      · exact ⟨[], by simp [h1, h2, h], by simp⟩
      · refine ⟨[.clear id, .create id], by simp [h1, h2, h], ?_⟩
        intro e he
        simp only [List.mem_cons, List.mem_singleton, List.not_mem_nil, or_false] at he
        rcases he with rfl | rfl <;> rfl
  | none =>
    cases h2 : assocFind nsdMap id with
    | none => exact ⟨[], by simp [h1, h2], by simp⟩
    | some new =>
      refine ⟨[.create id], by simp [h1, h2], ?_⟩
      intro e he
      simp only [List.mem_singleton] at he
      subst he; rfl

theorem syncStep_find_other (enabled : Bool) (nsdMap : List (Int × DsInfoEntry))
    (acc : promDsMap × List DsEvent) (id id' : Int) (h : id ≠ id') :
    assocFind (syncStep enabled nsdMap acc id).1 id' = assocFind acc.1 id' := by
  rcases acc with ⟨dsm, evs⟩
  unfold syncStep
  cases h1 : assocFind dsm id with
  | some cur =>
    cases h2 : assocFind nsdMap id with
    | none => simp [h1, h2, ClearDataset, assocFind_erase_ne _ _ _ h]
    | some new =>
      by_cases hc : cur.ds.CreationTime = new.CreationTime
      · simp [h1, h2, hc]
      · simp [h1, h2, hc, CreateDataset, ClearDataset, assocFind_insert,
          assocFind_erase_ne _ _ _ h, h]
  | none =>
    cases h2 : assocFind nsdMap id with
    | none => simp [h1, h2]
    | some new => simp [h1, h2, CreateDataset, assocFind_insert, h]

theorem syncStep_first_seen (enabled : Bool) (nsdMap : List (Int × DsInfoEntry))
    (acc : promDsMap × List DsEvent) (id : Int) (new : DsInfoEntry)
    (h1 : assocFind acc.1 id = none) (h2 : assocFind nsdMap id = some new) :
    (syncStep enabled nsdMap acc id).2 = acc.2 ++ [.create id] := by
  rcases acc with ⟨dsm, evs⟩
  unfold syncStep
  simp only at h1
  simp [h1, h2]

theorem syncFold_events_suffix (enabled : Bool) (nsdMap : List (Int × DsInfoEntry)) :
    ∀ (ids : List Int) (acc : promDsMap × List DsEvent),
      ∃ tail, (ids.foldl (syncStep enabled nsdMap) acc).2 = acc.2 ++ tail ∧
        ∀ e ∈ tail, e.dsid ∈ ids := by
  intro ids
  induction ids with
  | nil => exact fun acc => ⟨[], by simp, by simp⟩
  | cons j rest ih =>
    intro acc
    obtain ⟨t1, ht1, ha1⟩ := syncStep_events enabled nsdMap acc j
    obtain ⟨t2, ht2, ha2⟩ := ih (syncStep enabled nsdMap acc j)
    refine ⟨t1 ++ t2, ?_, ?_⟩
    · simp only [List.foldl_cons, ht2, ht1, List.append_assoc]
    · intro e he
      rcases List.mem_append.mp he with he | he
      · simp [ha1 e he]
      · simp [List.mem_cons]
        right
        exact ha2 e he

theorem syncFold_count_first_seen (enabled : Bool) (nsdMap : List (Int × DsInfoEntry)) :
    ∀ (ids : List Int) (acc : promDsMap × List DsEvent) (id : Int),
      ids.Nodup → id ∈ ids → assocFind acc.1 id = none →
      (∃ new, assocFind nsdMap id = some new) →
      ((ids.foldl (syncStep enabled nsdMap) acc).2.count (DsEvent.create id)) =
        acc.2.count (DsEvent.create id) + 1 := by
  intro ids
  induction ids with
  | nil => intro acc id _ hin; cases hin
  | cons j rest ih =>
    intro acc id hnd hin hfind hnew
    simp only [List.nodup_cons] at hnd
    simp only [List.foldl_cons]
    by_cases hij : id = j
    · subst hij
      obtain ⟨new, hnew⟩ := hnew
      have hstep := syncStep_first_seen enabled nsdMap acc id new hfind hnew
      obtain ⟨tail, htail, hall⟩ :=
        syncFold_events_suffix enabled nsdMap rest (syncStep enabled nsdMap acc id)
      rw [htail, hstep]
      have hzero : tail.count (DsEvent.create id) = 0 := by
        rw [List.count_eq_zero]
        intro hmem
        exact hnd.1 (by simpa [DsEvent.dsid] using hall _ hmem)
      simp [List.count_append, hzero]
    · have hrest : id ∈ rest := by
        rcases List.mem_cons.mp hin with h | h
        · exact absurd h hij
        · exact h
      have hfind2 : assocFind (syncStep enabled nsdMap acc j).1 id = none := by
        rw [syncStep_find_other enabled nsdMap acc j id (fun h => hij h.symm)]
        exact hfind
      have hcnt : (syncStep enabled nsdMap acc j).2.count (DsEvent.create id) =
          acc.2.count (DsEvent.create id) := by
        obtain ⟨t1, ht1, ha1⟩ := syncStep_events enabled nsdMap acc j
        rw [ht1, List.count_append]
        have : t1.count (DsEvent.create id) = 0 := by
          rw [List.count_eq_zero]
          intro hmem
          exact hij (by simpa [DsEvent.dsid] using ha1 _ hmem)
        omega
      rw [ih (syncStep enabled nsdMap acc j) id hnd.2 hrest hfind2 hnew, hcnt]

theorem assocFind_nsdMap_not_mem (l : List DsInfoEntry)
    (init : List (Int × DsInfoEntry)) (id : Int) (h : id ∉ l.map DsInfoEntry.Id) :
    assocFind (l.foldl (fun m v => assocInsert m v.Id v) init) id =
      assocFind init id := by
  induction l generalizing init with
  | nil => simp
  | cons v rest ih =>
    simp only [List.map_cons, List.mem_cons, not_or] at h
    simp only [List.foldl_cons]
    rw [ih _ h.2, assocFind_insert, if_neg (fun hh => h.1 hh.symm)]

theorem assocFind_nsdMap_of_mem (l : List DsInfoEntry)
    (init : List (Int × DsInfoEntry)) (d : DsInfoEntry)
    (hnd : (l.map DsInfoEntry.Id).Nodup) (hm : d ∈ l) :
    assocFind (l.foldl (fun m v => assocInsert m v.Id v) init) d.Id = some d := by
  induction l generalizing init with
  | nil => cases hm
  | cons v rest ih =>
    simp only [List.map_cons, List.nodup_cons] at hnd
    simp only [List.foldl_cons]
    rcases List.mem_cons.mp hm with rfl | hm'
    · rw [assocFind_nsdMap_not_mem rest _ d.Id hnd.1, assocFind_insert]
      simp
    · exact ih _ hnd.2 hm'

/-- Claim C2 (amended): the Go synchronizer's first call (no prior state)
emits one create per entry of the fetched list in order — including dataset
id 0 when it is present, contrary to the original claim; on every regular
(non-first) call no event whatsoever is emitted for id 0, because only slots
1..MaxDsId are compared; and on a regular call a dataset id in 1..MaxDsId
that was not previously tracked and appears (once) in the fetched list
produces exactly one create event. -/
theorem updateDatasets_create_events (enabled : Bool) :
    (∀ datasets, (UpdateDatasets enabled none datasets).2 =
        datasets.map (fun d => DsEvent.create d.Id)) ∧
    (∀ dsm datasets, ∀ e ∈ (UpdateDatasets enabled (some dsm) datasets).2,
        e.dsid ∈ dsIdRange ∧ e.dsid ≠ 0) ∧
    (∀ dsm datasets d, (datasets.map DsInfoEntry.Id).Nodup → d ∈ datasets →
        d.Id ∈ dsIdRange → assocFind dsm d.Id = none →
        ((UpdateDatasets enabled (some dsm) datasets).2.count
            (DsEvent.create d.Id)) = 1) := by
  refine ⟨?_, ?_, ?_⟩
  · intro datasets
    unfold UpdateDatasets
    simpa using updateDatasets_first_events_aux enabled datasets [] []
  · intro dsm datasets e he
    unfold UpdateDatasets at he
    obtain ⟨tail, htail, hall⟩ :=
      syncFold_events_suffix enabled
        (datasets.foldl (fun m v => assocInsert m v.Id v) []) dsIdRange (dsm, [])
    rw [htail] at he
    simp only [List.nil_append] at he
    have hmem := hall e he
    refine ⟨hmem, ?_⟩
    intro h0
    rw [h0] at hmem
    revert hmem
    decide
  · intro dsm datasets d hnd hmem hrange hfind
    unfold UpdateDatasets
    have hfound :
        assocFind (datasets.foldl (fun m v => assocInsert m v.Id v) []) d.Id = some d :=
      assocFind_nsdMap_of_mem datasets [] d hnd hmem
    have := syncFold_count_first_seen enabled
      (datasets.foldl (fun m v => assocInsert m v.Id v) []) dsIdRange (dsm, [])
      d.Id (by decide) hrange hfind ⟨d, hfound⟩
    simpa using this

/-- Witness for the amended C2 at concrete inputs: a first call over a list
holding ids 0 and 2, then a regular call on which id 3 is first seen. -/
theorem updateDatasets_create_events_witness :
    (UpdateDatasets false none
        [{ Id := 0, Name := "System" }, { Id := 2, Name := "d2" }]).2 =
      [DsEvent.create 0, DsEvent.create 2] ∧
    (∀ e ∈ (UpdateDatasets false (some []) [{ Id := 3, Name := "d3" }]).2,
        e.dsid ∈ dsIdRange ∧ e.dsid ≠ 0) ∧
    ((UpdateDatasets false (some []) [{ Id := 3, Name := "d3" }]).2.count
        (DsEvent.create 3)) = 1 := by
  refine ⟨?_, ?_, ?_⟩
  · exact (updateDatasets_create_events false).1
      [{ Id := 0, Name := "System" }, { Id := 2, Name := "d2" }]
  · exact fun e he => (updateDatasets_create_events false).2.1 [] _ e he
  · exact (updateDatasets_create_events false).2.2 [] [{ Id := 3, Name := "d3" }]
      { Id := 3, Name := "d3" } (by decide) (by decide) (by decide) (by decide)

/-! ## Claim C3: Authenticate's exponential backoff -/

theorem authLoop_first_success (outcome : Nat → Bool) :
    ∀ (k i r fuel : Nat), (∀ j, i ≤ j → j < i + k → outcome j = false) →
      outcome (i + k) = true → k < fuel →
      authLoop outcome i r fuel =
        (some (i + k), (List.range k).map (fun t => authBackoffStep^[t] r)) := by
  intro k
  induction k with
  | zero =>
    intro i r fuel _ hsucc hfuel
    obtain ⟨f, rfl⟩ : ∃ f, fuel = f + 1 := ⟨fuel - 1, by omega⟩
    simp only [authLoop]
    simp only [Nat.add_zero] at hsucc
    simp [hsucc]
  | succ k ih =>
    intro i r fuel hfail hsucc hfuel
    obtain ⟨f, rfl⟩ : ∃ f, fuel = f + 1 := ⟨fuel - 1, by omega⟩
    have hi : outcome i = false := hfail i le_rfl (by omega)
    simp only [authLoop, hi, Bool.false_eq_true, if_false]
    have hsucc' : outcome (i + 1 + k) = true := by
      have : i + 1 + k = i + (k + 1) := by omega
      rw [this]; exact hsucc
    have hfail' : ∀ j, i + 1 ≤ j → j < i + 1 + k → outcome j = false := by
      intro j h1 h2
      exact hfail j (by omega) (by omega)
    rw [ih (i + 1) (authBackoffStep r) f hfail' hsucc' (by omega)]
    have hidx : i + 1 + k = i + (k + 1) := by omega
    have hlist : (List.range (k + 1)).map (fun t => authBackoffStep^[t] r) =
        r :: (List.range k).map (fun t => authBackoffStep^[t] (authBackoffStep r)) := by
      rw [List.range_succ_eq_map, List.map_cons, List.map_map]
      simp [Function.comp_def, Function.iterate_succ_apply]
    rw [hidx, hlist]

theorem authBackoff_iterate (t : Nat) :
    authBackoffStep^[t] 1 = min (2 ^ t) maxTimeoutSecs := by
  induction t with
  | zero => simp [maxTimeoutSecs]
  | succ t ih =>
    rw [Function.iterate_succ_apply', ih]
    unfold authBackoffStep maxTimeoutSecs
    rcases le_or_lt (2 ^ t) 1800 with h | h
    · rw [min_eq_left h]
      have h2 : (2 : Nat) ^ (t + 1) = 2 ^ t * 2 := by ring
      by_cases hc : 2 ^ t * 2 > 1800
      · rw [if_pos hc, min_eq_right (by rw [h2]; omega)]
      · rw [if_neg hc, min_eq_left (by rw [h2]; omega), h2]
    · have h1 : (1800 : Nat) ≤ 2 ^ t := le_of_lt h
      rw [min_eq_right h1]
      have h2 : (2 : Nat) ^ t ≤ 2 ^ (t + 1) := Nat.pow_le_pow_right (by norm_num) (by omega)
      rw [if_pos (by omega), min_eq_right (by omega)]

theorem authLoop_sleeps_shape (outcome : Nat → Bool) :
    ∀ (fuel i t : Nat),
      ∃ n, (authLoop outcome i (authBackoffStep^[t] 1) fuel).2 =
        (List.range' t n).map (fun j => min (2 ^ j) maxTimeoutSecs) := by
  intro fuel
  induction fuel with
  | zero => exact fun i t => ⟨0, by simp [authLoop]⟩
  | succ f ih =>
    intro i t
    by_cases hi : outcome i
    · exact ⟨0, by simp [authLoop, hi]⟩
    · obtain ⟨n, hn⟩ := ih (i + 1) (t + 1)
      refine ⟨n + 1, ?_⟩
      simp only [authLoop, hi, Bool.false_eq_true, if_false]
      rw [List.range'_succ, List.map_cons]
      have hstep : authBackoffStep (authBackoffStep^[t] 1) = authBackoffStep^[t + 1] 1 :=
        (Function.iterate_succ_apply' _ _ _).symm
      rw [hstep, hn, authBackoff_iterate]

theorem authLoop_exhaust (outcome : Nat → Bool) :
    ∀ (fuel i r : Nat), (∀ j, i ≤ j → j < i + fuel → outcome j = false) →
      (authLoop outcome i r fuel).1 = none ∧
        (authLoop outcome i r fuel).2.length = fuel := by
  intro fuel
  induction fuel with
  | zero => intro i r _; simp [authLoop]
  | succ f ih =>
    intro i r hfail
    have hi : outcome i = false := hfail i le_rfl (by omega)
    have := ih (i + 1) (authBackoffStep r) (fun j h1 h2 => hfail j (by omega) (by omega))
    simp only [authLoop, hi, Bool.false_eq_true, if_false]
    simpa using this

theorem authLoop_succeeds (outcome : Nat → Bool) :
    ∀ (fuel i r : Nat), (∃ j, i ≤ j ∧ j < i + fuel ∧ outcome j = true) →
      (authLoop outcome i r fuel).1.isSome := by
  intro fuel
  induction fuel with
  | zero => rintro i r ⟨j, h1, h2, _⟩; omega
  | succ f ih =>
    rintro i r ⟨j, h1, h2, h3⟩
    by_cases hi : outcome i
    · simp [authLoop, hi]
    · have hji : j ≠ i := fun h => by rw [h] at h3; exact absurd h3 (by simp [hi])
      simp only [authLoop, hi, Bool.false_eq_true, if_false]
      exact ih (i + 1) (authBackoffStep r) ⟨j, by omega, by omega, h3⟩

/-- Claim C3: during `Authenticate`, connection failures are retried with
sleeps of 1s initially, doubling per attempt and capped at 1800s (so three
consecutive failures followed by a success sleep exactly 1s, 2s, 4s), up to
the configured retry ceiling; exhausting the ceiling yields the fatal
"max retries exceeded" error (`none`); and — with the config-layer ceiling
normalization modelled from the spec — a configured ceiling ≤ 0 means
unlimited retries, under which the loop reaches any eventual success instead
of ever exhausting. -/
theorem authenticate_backoff (outcome : Nat → Bool) (m : Nat) :
    (∃ n, (AuthenticateRetries outcome m).2 =
        (List.range n).map (fun j => min (2 ^ j) maxTimeoutSecs)) ∧
    ((∀ i, 1 ≤ i → i ≤ 3 → outcome i = false) → outcome 4 = true → 4 ≤ m →
      AuthenticateRetries outcome m = (some 4, [1, 2, 4])) ∧
    ((∀ i, 1 ≤ i → i ≤ m → outcome i = false) →
      (AuthenticateRetries outcome m).1 = none ∧
        (AuthenticateRetries outcome m).2.length = m) ∧
    (∀ c : Int, c ≤ 0 → effectiveRetryCeiling c = none) ∧
    (∀ k, 1 ≤ k → outcome k = true → ∀ fuel, k ≤ fuel →
      (AuthenticateRetries outcome fuel).1.isSome) := by
  refine ⟨?_, ?_, ?_, ?_, ?_⟩
  · have := authLoop_sleeps_shape outcome m 1 0
    simpa [AuthenticateRetries, List.range_eq_range'] using this
  · intro hfail hsucc hm
    have h := authLoop_first_success outcome 3 1 1 m
      (fun j h1 h2 => hfail j h1 (by omega)) (by simpa using hsucc) (by omega)
    unfold AuthenticateRetries
    rw [h]
    decide
  · intro hfail
    exact authLoop_exhaust outcome m 1 1 (fun j h1 h2 => hfail j h1 (by omega))
  · intro c hc
    simp [effectiveRetryCeiling, hc]
  · intro k hk hsucc fuel hfuel
    exact authLoop_succeeds outcome fuel 1 1 ⟨k, hk, by omega, hsucc⟩

/-- Witness for C3: the 1s/2s/4s scenario with a ceiling of 8, exhaustion
with a ceiling of 2, and the unlimited-ceiling normalization at -1. -/
theorem authenticate_backoff_witness :
    AuthenticateRetries (fun i => decide (i = 4)) 8 = (some 4, [1, 2, 4]) ∧
    (AuthenticateRetries (fun _ => false) 2).1 = none ∧
    (AuthenticateRetries (fun _ => false) 2).2.length = 2 ∧
    effectiveRetryCeiling (-1) = none ∧
    (AuthenticateRetries (fun i => decide (i = 4)) 9).1.isSome := by
  refine ⟨?_, ?_, ?_, ?_, ?_⟩
  · exact (authenticate_backoff (fun i => decide (i = 4)) 8).2.1
      (by decide) (by decide) (by decide)
  · exact ((authenticate_backoff (fun _ => false) 2).2.2.1 (fun _ _ _ => rfl)).1
  · exact ((authenticate_backoff (fun _ => false) 2).2.2.1 (fun _ _ _ => rfl)).2
  · exact (authenticate_backoff (fun _ => false) 0).2.2.2.1 (-1) (by omega)
  · exact (authenticate_backoff (fun i => decide (i = 4)) 0).2.2.2.2 4 (by omega)
      (by decide) 9 (by omega)

/-! ## Claim C8: statsloop read-retry behavior -/

theorem readRetryLoop_eq (n : Nat) : ∀ r, readRetryLoop r n =
    ((List.range n).map (fun t => cycleBackoffStep^[t] r), cycleBackoffStep^[n] r) := by
  induction n with
  | zero => intro r; simp [readRetryLoop]
  | succ n ih =>
    intro r
    have hlist : (List.range (n + 1)).map (fun t => cycleBackoffStep^[t] r) =
        r :: (List.range n).map (fun t => cycleBackoffStep^[t] (cycleBackoffStep r)) := by
      rw [List.range_succ_eq_map, List.map_cons, List.map_map]
      simp [Function.comp_def, Function.iterate_succ_apply]
    rw [hlist]
    have hiter : cycleBackoffStep^[n + 1] r = cycleBackoffStep^[n] (cycleBackoffStep r) :=
      Function.iterate_succ_apply _ _ _
    rw [hiter]
    simp [readRetryLoop, ih (cycleBackoffStep r)]

theorem cycleBackoff_iterate_ten (t : Nat) :
    cycleBackoffStep^[t] 10 = min (10 * 2 ^ t) maxRetryTime := by
  induction t with
  | zero => simp [maxRetryTime]
  | succ t ih =>
    rw [Function.iterate_succ_apply', ih]
    have h2 : (10 : Nat) * 2 ^ (t + 1) = 10 * 2 ^ t * 2 := by ring
    unfold cycleBackoffStep maxRetryTime
    rcases lt_trichotomy (10 * 2 ^ t) 1280 with h | h | h
    · rw [min_eq_left (le_of_lt h), if_pos h]
      have hpow : 2 ^ t < 2 ^ 7 := by norm_num; omega
      have ht : t < 7 := (Nat.pow_lt_pow_iff_right (by norm_num)).mp hpow
      have hle : (2 : Nat) ^ (t + 1) ≤ 2 ^ 7 :=
        Nat.pow_le_pow_right (by norm_num) (by omega)
      rw [min_eq_left (by norm_num at hle; omega)]
      rw [h2]
    · rw [h, min_eq_right (by omega), if_neg (by omega), min_eq_right (by rw [h2]; omega)]
    · rw [min_eq_right (by omega), if_neg (by omega), min_eq_right (by rw [h2]; omega)]

theorem writeLoop_succ (wFails i r fuel : Nat) :
    writeLoop wFails i r (fuel + 1) =
      if wFails < i then (true, [], r)
      else
        let rest := writeLoop wFails (i + 1) (cycleBackoffStep r) fuel
        (rest.1, r :: rest.2.1, rest.2.2) := rfl

theorem writeLoop_success_iff (wFails : Nat) :
    ∀ (fuel i r : Nat), ((writeLoop wFails i r (fuel + 1)).1 = true ↔ wFails < i + fuel) := by
  intro fuel
  induction fuel with
  | zero =>
    intro i r
    by_cases h : wFails < i <;> simp [writeLoop, h]
  | succ f ih =>
    intro i r
    rw [writeLoop_succ]
    by_cases h : wFails < i
    · simp only [if_pos h]
      simp
      omega
    · rw [if_neg h]
      show (writeLoop wFails (i + 1) (cycleBackoffStep r) (f + 1)).1 = true ↔ _
      rw [ih (i + 1) (cycleBackoffStep r)]
      omega

theorem writeRetry_success (gc : CycleGc) (wFails : Nat)
    (h : gc.ProcessorMaxRetries = 0 ∨ wFails < gc.ProcessorMaxRetries) :
    (writeRetry gc wFails).1 = true := by
  unfold writeRetry
  rcases h with h | h
  · simp [h]
  · obtain ⟨m, hm⟩ : ∃ m, gc.ProcessorMaxRetries = m + 1 :=
      ⟨gc.ProcessorMaxRetries - 1, by omega⟩
    rw [hm]
    simp only [Nat.succ_ne_zero, if_false]
    rw [writeLoop_success_iff]
    omega

theorem cycleDatasets_no_abort (gc : CycleGc) :
    ∀ (dss : List (Nat × Nat)) (r : Nat),
      (∀ d ∈ dss, gc.ProcessorMaxRetries = 0 ∨ d.2 < gc.ProcessorMaxRetries) →
      (cycleDatasets gc r dss).2 = false ∧
        (cycleDatasets gc r dss).1.map (fun p => p.1.length) = dss.map Prod.fst := by
  intro dss
  induction dss with
  | nil => intro r _; simp [cycleDatasets]
  | cons d rest ih =>
    intro r hall
    obtain ⟨rf, wf⟩ := d
    have hw : (writeRetry gc wf).1 = true :=
      writeRetry_success gc wf (by simpa using hall (rf, wf) (by simp))
    have hrest := ih (writeRetry gc wf).2.2 (fun d hd => hall d (by simp [hd]))
    simp only [cycleDatasets, hw, if_true]
    refine ⟨hrest.1, ?_⟩
    simp only [List.map_cons, hrest.2]
    rw [readRetryLoop_eq]
    simp

/-- Claim C8 (amended): in the per-cluster cycle a failed workload fetch is
never fatal: the fetch is retried, sleeping then doubling the (shared) backoff
timer while it is below 1280s, until the fetch succeeds, and when every write
phase succeeds within its ceiling the whole cycle completes with every
dataset's fetch retried exactly once per failure.  The backoff timer starts at
10s at the beginning of each cycle, so the first fetch-retry episode of a
cycle sleeps min(10·2^t, 1280); but the timer is shared across the cycle and
reset by each write phase, so later datasets' retry episodes start from
whatever value the timer then holds, not necessarily 10s. -/
theorem statsloop_read_retry_behavior (gc : CycleGc) :
    (∀ dss r, (∀ d ∈ dss, gc.ProcessorMaxRetries = 0 ∨ d.2 < gc.ProcessorMaxRetries) →
       (cycleDatasets gc r dss).2 = false ∧
         (cycleDatasets gc r dss).1.map (fun p => p.1.length) = dss.map Prod.fst) ∧
    (∀ rf wf rest, ((runCycle gc ((rf, wf) :: rest)).1.head?).map Prod.fst =
       some ((List.range rf).map (fun t => min (10 * 2 ^ t) maxRetryTime))) ∧
    (∀ r n, (readRetryLoop r n).1 =
       (List.range n).map (fun t => cycleBackoffStep^[t] r)) := by
  refine ⟨fun dss r h => cycleDatasets_no_abort gc dss r h, ?_, ?_⟩
  · intro rf wf rest
    unfold runCycle cycleDatasets
    by_cases hw : (writeRetry gc wf).1 = true
    · simp only [hw, if_true, List.head?_cons, Option.map_some]
      rw [readRetryLoop_eq]
      simp [cycleBackoff_iterate_ten]
    · simp only [Bool.not_eq_true] at hw
      simp only [hw, Bool.false_eq_true, if_false, List.head?_cons, Option.map_some]
      rw [readRetryLoop_eq]
      simp [cycleBackoff_iterate_ten]
  · intro r n
    rw [readRetryLoop_eq]

/-- Witness for the amended C8: a cycle of two datasets, one fetch failure
each, writes succeeding immediately under a ceiling of 8. -/
theorem statsloop_read_retry_behavior_witness :
    (cycleDatasets { ProcessorRetryIntvl := 5, ProcessorMaxRetries := 8 } 10
        [(1, 0), (1, 0)]).2 = false ∧
    (cycleDatasets { ProcessorRetryIntvl := 5, ProcessorMaxRetries := 8 } 10
        [(1, 0), (1, 0)]).1.map (fun p => p.1.length) = [1, 1] ∧
    ((runCycle { ProcessorRetryIntvl := 5, ProcessorMaxRetries := 8 }
        [(3, 0)]).1.head?).map Prod.fst = some [10, 20, 40] := by
  refine ⟨?_, ?_, ?_⟩
  · exact ((statsloop_read_retry_behavior
      { ProcessorRetryIntvl := 5, ProcessorMaxRetries := 8 }).1
      [(1, 0), (1, 0)] 10 (by decide)).1
  · exact ((statsloop_read_retry_behavior
      { ProcessorRetryIntvl := 5, ProcessorMaxRetries := 8 }).1
      [(1, 0), (1, 0)] 10 (by decide)).2
  · rw [(statsloop_read_retry_behavior
      { ProcessorRetryIntvl := 5, ProcessorMaxRetries := 8 }).2.1 3 0 []]
    decide

/-- Counterexample to claim C8 as stated: with the documented default write
retry interval of 5s, the second dataset's first fetch retry of a cycle
sleeps 5s, not 10s — the cycle's backoff timer was reset by the first
dataset's write phase. -/
theorem statsloop_second_dataset_backoff_counterexample :
    (runCycle { ProcessorRetryIntvl := 5, ProcessorMaxRetries := 8 }
        [(1, 0), (1, 0)]).1.map Prod.fst = [[10], [5]] := by
  decide

/-! ## Claim C6: one record per fingerprint, latest value -/

/-- A sequence of `recordSample` calls restricted to one family: each element
is a `(sampleID, sample)` pair fed to `addSample`, starting from the freshly
created family. -/
def recordSamples (ops : List (String × Sample)) (desc : String) : MetricFamily :=
  ops.foldl (fun f p => addSample f p.2 p.1)
    { Samples := [], LabelSet := [], Desc := desc }

/-- The sample stored by the last recording for a given fingerprint. -/
def lastRecorded (ops : List (String × Sample)) (id : String) : Option Sample :=
  (ops.filterMap (fun p => if p.1 = id then some p.2 else none)).getLast?

theorem lastRecorded_concat (ops : List (String × Sample)) (q : String × Sample)
    (id : String) :
    lastRecorded (ops ++ [q]) id =
      if q.1 = id then some q.2 else lastRecorded ops id := by
  unfold lastRecorded
  rw [List.filterMap_append]
  by_cases h : q.1 = id
  · simp [h, List.getLast?_concat]
  · simp [h]

theorem assocFind_mem {α β : Type} [DecidableEq α] {m : List (α × β)} {k : α} {v : β}
    (h : assocFind m k = some v) : (k, v) ∈ m := by
  induction m with
  | nil => simp [assocFind] at h
  | cons p rest ih =>
    obtain ⟨k0, v0⟩ := p
    by_cases h0 : k0 = k
    · subst h0
      have h' : v0 = v := by simpa [assocFind] using h
      subst h'
      simp
    · simp only [assocFind, if_neg h0] at h
      simp [ih h]

theorem mem_assocInsert {α β : Type} [DecidableEq α] {m : List (α × β)} {k : α}
    {v : β} {q : α × β} (h : q ∈ assocInsert m k v) : q ∈ m ∨ q = (k, v) := by
  induction m with
  | nil =>
    right
    simpa [assocInsert] using h
  | cons p rest ih =>
    obtain ⟨k0, v0⟩ := p
    by_cases h0 : k0 = k
    · subst h0
      rw [show assocInsert ((k0, v0) :: rest) k0 v = (k0, v) :: rest by
        simp [assocInsert]] at h
      rcases List.mem_cons.mp h with h | h
      · right; exact h
      · left; exact List.mem_cons_of_mem _ h
    · rw [show assocInsert ((k0, v0) :: rest) k v = (k0, v0) :: assocInsert rest k v by
        simp [assocInsert, h0]] at h
      rcases List.mem_cons.mp h with h | h
      · left
        rw [h]
        exact List.mem_cons_self _ _
      · rcases ih h with h | h
        · left; exact List.mem_cons_of_mem _ h
        · right; exact h

theorem recordSamples_find (desc : String) (ops : List (String × Sample)) (id : String) :
    assocFind (recordSamples ops desc).Samples id = lastRecorded ops id := by
  induction ops using List.reverseRecOn with
  | nil => simp [recordSamples, lastRecorded, assocFind]
  | append_singleton ops q ih =>
    unfold recordSamples at ih ⊢
    rw [List.foldl_append, List.foldl_cons, List.foldl_nil, lastRecorded_concat]
    show assocFind (assocInsert _ q.1 q.2) id = _
    rw [assocFind_insert]
    by_cases h : q.1 = id
    · simp [h]
    · simp [h, ih]

theorem toFinset_keys_assocInsert {α β : Type} [DecidableEq α]
    (m : List (α × β)) (k : α) (v : β) :
    ((assocInsert m k v).map Prod.fst).toFinset = insert k (m.map Prod.fst).toFinset := by
  rw [keys_assocInsert]
  by_cases hs : (assocFind m k).isSome
  · rw [if_pos hs]
    have hk : k ∈ (m.map Prod.fst).toFinset :=
      List.mem_toFinset.mpr (mem_keys_of_assocFind_isSome hs)
    rw [Finset.insert_eq_self.mpr hk]
  · rw [if_neg hs, List.toFinset_append]
    simp [Finset.union_comm, Finset.insert_eq]

theorem recordSamples_keys_toFinset (desc : String) (ops : List (String × Sample)) :
    (((recordSamples ops desc).Samples).map Prod.fst).toFinset =
      (ops.map Prod.fst).toFinset := by
  induction ops using List.reverseRecOn with
  | nil => simp [recordSamples]
  | append_singleton ops q ih =>
    unfold recordSamples at ih ⊢
    rw [List.foldl_append, List.foldl_cons, List.foldl_nil]
    show (((assocInsert _ q.1 q.2)).map Prod.fst).toFinset = _
    rw [toFinset_keys_assocInsert, ih]
    simp [List.toFinset_append, Finset.union_comm, Finset.insert_eq]

theorem recordSamples_keys_nodup (desc : String) (ops : List (String × Sample)) :
    (((recordSamples ops desc).Samples).map Prod.fst).Nodup := by
  induction ops using List.reverseRecOn with
  | nil => simp [recordSamples]
  | append_singleton ops q ih =>
    unfold recordSamples at ih ⊢
    rw [List.foldl_append, List.foldl_cons, List.foldl_nil]
    exact nodup_keys_assocInsert ih q.1 q.2

theorem recordSamples_samples_sub (desc : String) (ops : List (String × Sample)) :
    ∀ q ∈ (recordSamples ops desc).Samples, q.2 ∈ ops.map Prod.snd := by
  induction ops using List.reverseRecOn with
  | nil => simp [recordSamples, addSample]
  | append_singleton ops p ih =>
    unfold recordSamples at ih ⊢
    rw [List.foldl_append, List.foldl_cons, List.foldl_nil]
    intro q hq
    have hq' := mem_assocInsert (m := (recordSamples ops desc).Samples) (by exact hq)
    rcases hq' with hq' | hq'
    · simp only [List.map_append, List.mem_append]
      left
      exact ih q hq'
    · subst hq'
      simp

theorem expireFamily_noop (now : Int) (fam : MetricFamily)
    (h : ∀ p ∈ fam.Samples, ¬ now > p.2.Expiration) : expireFamily now fam = fam := by
  unfold expireFamily
  have h1 : fam.Samples.filter (fun p => decide (now > p.2.Expiration)) = [] := by
    rw [List.filter_eq_nil_iff]
    intro p hp
    simpa using h p hp
  have h2 : fam.Samples.filter (fun p => decide (¬ now > p.2.Expiration)) = fam.Samples := by
    rw [List.filter_eq_self]
    intro p hp
    simpa using h p hp
  rw [h1, h2]
  simp

/-- Claim C6: after any sequence of `recordSample` calls on one family, a
collect before any ttl elapses emits exactly one record per distinct
fingerprint recorded in the family, and for each fingerprint the emitted
value (and source timestamp) comes from the sample stored by the most
recent recording for it — each new recording replaces the stored sample
wholesale. -/
theorem collect_latest_per_fingerprint (now : Int) (name desc : String)
    (ops : List (String × Sample))
    (hfresh : ∀ p ∈ ops, ¬ now > p.2.Expiration) :
    (Collect now [(name, recordSamples ops desc)]).2.length =
      ((ops.map Prod.fst).toFinset).card ∧
    (∀ id s, lastRecorded ops id = some s →
      ∃ r ∈ (Collect now [(name, recordSamples ops desc)]).2,
        r.value = s.Value ∧ r.timestamp = s.Timestamp ∧ r.name = name) := by
  have hexp : expireFamily now (recordSamples ops desc) = recordSamples ops desc := by
    apply expireFamily_noop
    intro p hp
    have := recordSamples_samples_sub desc ops p hp
    rw [List.mem_map] at this
    obtain ⟨q, hq, hq2⟩ := this
    rw [← hq2]
    exact hfresh q hq
  have hstore : Expire now [(name, recordSamples ops desc)] =
      [(name, recordSamples ops desc)] := by
    unfold Expire
    simp only [List.map_cons, List.map_nil, hexp]
    by_cases hemp : (recordSamples ops desc).Samples.isEmpty
    · simp [hemp]
    · simp [hemp]
  constructor
  · simp only [Collect, hstore, List.foldr_cons, List.foldr_nil, List.append_nil]
    unfold familyRecords
    rw [List.length_map]
    have hlen : ((recordSamples ops desc).Samples).length =
        (((recordSamples ops desc).Samples).map Prod.fst).length :=
      (List.length_map _ _).symm
    rw [hlen, ← List.toFinset_card_of_nodup (recordSamples_keys_nodup desc ops),
      recordSamples_keys_toFinset]
  · intro id s hlast
    have hfind : assocFind (recordSamples ops desc).Samples id = some s := by
      rw [recordSamples_find]; exact hlast
    have hmem : (id, s) ∈ (recordSamples ops desc).Samples := assocFind_mem hfind
    simp only [Collect, hstore, List.foldr_cons, List.foldr_nil, List.append_nil]
    unfold familyRecords
    refine ⟨_, List.mem_map_of_mem _ hmem, rfl, rfl, rfl⟩

/-- Witness for C6: two recordings under fingerprint "a" (the second wins)
and one under "b". -/
theorem collect_latest_per_fingerprint_witness :
    (Collect 0 [("fam", recordSamples
        [("a", { Value := 1, Expiration := 30 }),
         ("a", { Value := 2, Expiration := 30 }),
         ("b", { Value := 5, Expiration := 30 })] "d")]).2.length = 2 ∧
    (∃ r ∈ (Collect 0 [("fam", recordSamples
        [("a", { Value := 1, Expiration := 30 }),
         ("a", { Value := 2, Expiration := 30 }),
         ("b", { Value := 5, Expiration := 30 })] "d")]).2,
      r.value = 2 ∧ r.timestamp = 0 ∧ r.name = "fam") := by
  constructor
  · exact (collect_latest_per_fingerprint 0 "fam" "d"
      [("a", { Value := 1, Expiration := 30 }),
       ("a", { Value := 2, Expiration := 30 }),
       ("b", { Value := 5, Expiration := 30 })] (by decide)).1.trans (by decide)
  · exact (collect_latest_per_fingerprint 0 "fam" "d"
      [("a", { Value := 1, Expiration := 30 }),
       ("a", { Value := 2, Expiration := 30 }),
       ("b", { Value := 5, Expiration := 30 })] (by decide)).2 "a"
      { Value := 2, Expiration := 30 } (by decide)

/-! ## Claim C5: expiration on collect -/

theorem assocFind_filter_none {α β : Type} [DecidableEq α] (l : List (α × β))
    (p : α × β → Bool) (k : α) (h : assocFind l k = none) :
    assocFind (l.filter p) k = none := by
  apply assocFind_eq_none_of_not_mem
  intro hmem
  rw [List.mem_map] at hmem
  obtain ⟨q, hq, hq2⟩ := hmem
  have hql : q ∈ l := (List.mem_filter.mp hq).1
  have hsome : (assocFind l k).isSome := by
    apply assocFind_isSome_of_mem_keys
    rw [← hq2]
    exact List.mem_map_of_mem Prod.fst hql
  rw [h] at hsome
  cases hsome

theorem assocFind_filter {α β : Type} [DecidableEq α] (l : List (α × β))
    (p : α × β → Bool) (k : α) (hnd : (l.map Prod.fst).Nodup) :
    assocFind (l.filter p) k =
      (assocFind l k).bind (fun v => if p (k, v) then some v else none) := by
  induction l with
  | nil => simp [assocFind]
  | cons q rest ih =>
    obtain ⟨k0, v0⟩ := q
    simp only [List.map_cons, List.nodup_cons] at hnd
    by_cases h0 : k0 = k
    · subst h0
      have hrest : assocFind rest k0 = none := assocFind_eq_none_of_not_mem hnd.1
      by_cases hp : p (k0, v0)
      · simp [List.filter_cons, hp, assocFind]
      · simp only [List.filter_cons, hp, Bool.false_eq_true, if_false]
        rw [assocFind_filter_none rest p k0 hrest]
        simp [assocFind, hp]
    · by_cases hp : p (k0, v0)
      · simp only [List.filter_cons, hp, if_true]
        simp only [assocFind, if_neg h0]
        exact ih hnd.2
      · simp only [List.filter_cons, hp, Bool.false_eq_true, if_false]
        simp only [assocFind, if_neg h0]
        exact ih hnd.2

theorem countGet_foldAdd (d : Int) (labels : List (String × String)) :
    ∀ (ls : List (String × Int)) (k : String), (labels.map Prod.fst).Nodup →
      countGet (labels.foldl (fun ls q => countAdd ls q.1 d) ls) k =
        countGet ls k + (if k ∈ labels.map Prod.fst then d else 0) := by
  induction labels with
  | nil => intro ls k _; simp
  | cons q rest ih =>
    intro ls k hnd
    simp only [List.map_cons, List.nodup_cons] at hnd
    simp only [List.foldl_cons]
    rw [ih (countAdd ls q.1 d) k hnd.2, countGet_countAdd]
    by_cases hqk : q.1 = k
    · subst hqk
      rw [if_pos rfl, if_neg hnd.1, if_pos (by simp)]
      omega
    · rw [if_neg hqk]
      have hmemiff : (k ∈ (q :: rest).map Prod.fst) ↔ k ∈ rest.map Prod.fst := by
        simp only [List.map_cons, List.mem_cons]
        constructor
        · rintro (h | h)
          · exact absurd h.symm hqk
          · exact h
        · exact Or.inr
      by_cases hk : k ∈ rest.map Prod.fst
      · rw [if_pos hk, if_pos (hmemiff.mpr hk)]
      · rw [if_neg hk, if_neg (fun h => hk (hmemiff.mp h))]

theorem countGet_foldDec_samples (expired : List (String × Sample)) :
    ∀ (ls : List (String × Int)) (k : String),
      (∀ p ∈ expired, (p.2.Labels.map Prod.fst).Nodup) →
      countGet (expired.foldl
          (fun ls p => p.2.Labels.foldl (fun ls q => countAdd ls q.1 (-1)) ls) ls) k =
        countGet ls k -
          (expired.countP (fun p => decide (k ∈ p.2.Labels.map Prod.fst)) : Int) := by
  induction expired with
  | nil => intro ls k _; simp
  | cons p rest ih =>
    intro ls k hnd
    simp only [List.foldl_cons]
    rw [ih _ k (fun q hq => hnd q (List.mem_cons_of_mem _ hq)),
      countGet_foldAdd (-1) p.2.Labels ls k (hnd p (List.mem_cons_self _ _)),
      List.countP_cons]
    by_cases hk : k ∈ p.2.Labels.map Prod.fst
    · rw [if_pos hk, if_pos (by simpa using hk)]
      push_cast
      omega
    · rw [if_neg hk, if_neg (by simpa using hk)]
      push_cast
      omega

theorem Expire_cons (now : Int) (p : String × MetricFamily) (rest : FamMap) :
    Expire now (p :: rest) =
      if (expireFamily now p.2).Samples.isEmpty && !p.2.Samples.isEmpty
      then Expire now rest
      else (p.1, expireFamily now p.2) :: Expire now rest := by
  unfold Expire
  simp only [List.map_cons, List.filterMap_cons]
  by_cases hcond : ((expireFamily now p.2).Samples.isEmpty && !p.2.Samples.isEmpty) = true
  · rw [if_pos hcond, if_pos hcond]
  · rw [if_neg hcond, if_neg hcond]

theorem expire_entry_mem (now : Int) (fams : FamMap) :
    ∀ q ∈ Expire now fams, ∃ fam, (q.1, fam) ∈ fams ∧ q.2 = expireFamily now fam := by
  induction fams with
  | nil => intro q hq; simp [Expire] at hq
  | cons p rest ih =>
    intro q hq
    rw [Expire_cons] at hq
    by_cases hcond : ((expireFamily now p.2).Samples.isEmpty && !p.2.Samples.isEmpty) = true
    · rw [if_pos hcond] at hq
      obtain ⟨fam, h1, h2⟩ := ih q hq
      exact ⟨fam, List.mem_cons_of_mem _ h1, h2⟩
    · rw [if_neg hcond] at hq
      rcases List.mem_cons.mp hq with rfl | hq'
      · exact ⟨p.2, List.mem_cons_self _ _, rfl⟩
      · obtain ⟨fam, h1, h2⟩ := ih q hq'
        exact ⟨fam, List.mem_cons_of_mem _ h1, h2⟩

theorem expire_find_none (now : Int) (fams : FamMap) (name : String)
    (h : assocFind fams name = none) :
    assocFind (Expire now fams) name = none := by
  apply assocFind_eq_none_of_not_mem
  intro hmem
  rw [List.mem_map] at hmem
  obtain ⟨q, hq, hq2⟩ := hmem
  obtain ⟨fam, hfam, _⟩ := expire_entry_mem now fams q hq
  have hsome : (assocFind fams name).isSome := by
    apply assocFind_isSome_of_mem_keys
    rw [← hq2]
    simpa using List.mem_map_of_mem Prod.fst hfam
  rw [h] at hsome
  cases hsome

theorem expire_find (now : Int) (fams : FamMap) (name : String) (fam : MetricFamily) :
    (fams.map Prod.fst).Nodup → assocFind fams name = some fam →
    assocFind (Expire now fams) name =
      (if (expireFamily now fam).Samples.isEmpty && !fam.Samples.isEmpty then none
       else some (expireFamily now fam)) := by
  induction fams with
  | nil => intro _ hfind; simp [assocFind] at hfind
  | cons q rest ih =>
    intro hnd hfind
    obtain ⟨n0, f0⟩ := q
    simp only [List.map_cons, List.nodup_cons] at hnd
    rw [Expire_cons]
    by_cases h0 : n0 = name
    · subst h0
      have hf : f0 = fam := by simpa [assocFind] using hfind
      subst hf
      have hrest : assocFind rest n0 = none := assocFind_eq_none_of_not_mem hnd.1
      by_cases hcond : ((expireFamily now f0).Samples.isEmpty && !f0.Samples.isEmpty) = true
      · rw [if_pos hcond, if_pos hcond]
        exact expire_find_none now rest n0 hrest
      · rw [if_neg hcond, if_neg hcond]
        simp [assocFind]
    · have hfind' : assocFind rest name = some fam := by
        simpa [assocFind, h0] using hfind
      by_cases hcond : ((expireFamily now f0).Samples.isEmpty && !f0.Samples.isEmpty) = true
      · rw [if_pos hcond]
        exact ih hnd.2 hfind'
      · rw [if_neg hcond]
        simp only [assocFind, if_neg h0]
        exact ih hnd.2 hfind'

theorem collect_record_names (now : Int) (fams : FamMap) :
    ∀ r ∈ (Collect now fams).2, r.name ∈ (Expire now fams).map Prod.fst := by
  have haux : ∀ (st : FamMap),
      ∀ r ∈ st.foldr (fun p acc => familyRecords p.1 p.2 ++ acc) [],
        r.name ∈ st.map Prod.fst := by
    intro st
    induction st with
    | nil => simp
    | cons p rest ih =>
      intro r hr
      simp only [List.foldr_cons, List.mem_append] at hr
      rcases hr with hr | hr
      · unfold familyRecords at hr
        rw [List.mem_map] at hr
        obtain ⟨q, _, hq2⟩ := hr
        rw [← hq2]
        simp
      · simp [ih r hr]
  intro r hr
  exact haux (Expire now fams) r hr

/-- Claim C5: for every sample whose expiration deadline has passed at the
start of a collect: the sample is removed from its family; the family's
per-label-key usage count drops by one for each expired sample carrying the
key; a family whose sample map becomes empty through the removal disappears
from the store and contributes no records; and every sample surviving into
the emitted store is unexpired. -/
theorem collect_expires (now : Int) :
    (∀ (fam : MetricFamily) (id : String) (s : Sample),
      (fam.Samples.map Prod.fst).Nodup →
      assocFind fam.Samples id = some s → now > s.Expiration →
      assocFind (expireFamily now fam).Samples id = none) ∧
    (∀ (fam : MetricFamily) (k : String),
      (∀ p ∈ fam.Samples, (p.2.Labels.map Prod.fst).Nodup) →
      countGet (expireFamily now fam).LabelSet k =
        countGet fam.LabelSet k -
          ((fam.Samples.filter (fun p => decide (now > p.2.Expiration))).countP
            (fun p => decide (k ∈ p.2.Labels.map Prod.fst)) : Int)) ∧
    (∀ (fams : FamMap) (name : String) (fam : MetricFamily),
      (fams.map Prod.fst).Nodup → assocFind fams name = some fam →
      fam.Samples ≠ [] → (expireFamily now fam).Samples = [] →
      assocFind (Expire now fams) name = none ∧
        ∀ r ∈ (Collect now fams).2, r.name ≠ name) ∧
    (∀ (fams : FamMap), ∀ q ∈ Expire now fams, ∀ p ∈ q.2.Samples,
      ¬ now > p.2.Expiration) := by
  refine ⟨?_, ?_, ?_, ?_⟩
  · intro fam id s hnd hfind hexp
    show assocFind (fam.Samples.filter _) id = none
    rw [assocFind_filter _ _ _ hnd, hfind]
    simp [hexp]
  · intro fam k hnds
    show countGet (List.foldl _ fam.LabelSet _) k = _
    exact countGet_foldDec_samples _ fam.LabelSet k
      (fun p hp => hnds p (List.mem_filter.mp hp).1)
  · intro fams name fam hnd hfind hne hall
    have hcond : ((expireFamily now fam).Samples.isEmpty && !fam.Samples.isEmpty) = true := by
      simp [hall, hne]
    have hnone : assocFind (Expire now fams) name = none := by
      rw [expire_find now fams name fam hnd hfind, if_pos hcond]
    refine ⟨hnone, ?_⟩
    intro r hr heq
    have hmem := collect_record_names now fams r hr
    rw [heq] at hmem
    have hsome := assocFind_isSome_of_mem_keys hmem
    rw [hnone] at hsome
    cases hsome
  · intro fams q hq p hp
    obtain ⟨fam, _, h2⟩ := expire_entry_mem now fams q hq
    rw [h2] at hp
    have := (List.mem_filter.mp hp).2
    simpa using this

/-- A sample expiring at time 5, used to witness C5. -/
def c5Sample : Sample :=
  { Labels := [("k", "v")], Value := 1, Timestamp := 0, Expiration := 5 }

/-- A one-sample family whose sample expires at time 5, used to witness C5. -/
def c5Fam : MetricFamily :=
  { Samples := [("a", c5Sample)], LabelSet := [("k", 1)], Desc := "d" }

/-- Witness for C5 at a concrete store collected after the sample's ttl. -/
theorem collect_expires_witness :
    assocFind (expireFamily 10 c5Fam).Samples "a" = none ∧
    countGet (expireFamily 10 c5Fam).LabelSet "k" = 0 ∧
    assocFind (Expire 10 [("f", c5Fam)]) "f" = none ∧
    (∀ r ∈ (Collect 10 [("f", c5Fam)]).2, r.name ≠ "f") := by
  refine ⟨?_, ?_, ?_, ?_⟩
  · exact (collect_expires 10).1 c5Fam "a" c5Sample
      (by decide) (by decide) (by decide)
  · exact ((collect_expires 10).2.1 c5Fam "k" (by decide)).trans (by decide)
  · exact ((collect_expires 10).2.2.1 [("f", c5Fam)] "f" c5Fam
      (by decide) (by decide) (by decide) (by decide)).1
  · exact ((collect_expires 10).2.2.1 [("f", c5Fam)] "f" c5Fam
      (by decide) (by decide) (by decide) (by decide)).2

/-! ## Claim C9: double recording leaks label-usage counts -/

/-- The family state after recording sample `A` twice under fingerprint `ida`
and then sample `B` under fingerprint `idb`, starting from a fresh family. -/
def doubleRecorded (desc : String) (A B : Sample) (ida idb : String) : MetricFamily :=
  addSample (addSample (addSample
    { Samples := [], LabelSet := [], Desc := desc } A ida) A ida) B idb

/-- Claim C9: recording the same fingerprint twice increments the per-label-key
usage counters on both calls without decrementing the replaced sample's, so a
label key of the doubly-recorded sample has usage count 2 while only one live
sample carries it; one expiration of that sample decrements the count once,
leaving count 1 with no live sample carrying the key, and the key stays in
the family's exposed label set while another sample keeps the family alive. -/
theorem label_count_leak (now : Int) (desc : String) (A B : Sample)
    (ida idb k : String)
    (hk : k ∈ A.Labels.map Prod.fst) (hkB : k ∉ B.Labels.map Prod.fst)
    (hnA : (A.Labels.map Prod.fst).Nodup) (hnB : (B.Labels.map Prod.fst).Nodup)
    (hne : ida ≠ idb) (hexpA : now > A.Expiration) (hfreshB : ¬ now > B.Expiration) :
    countGet (doubleRecorded desc A B ida idb).LabelSet k = 2 ∧
    (doubleRecorded desc A B ida idb).Samples = [(ida, A), (idb, B)] ∧
    countGet (expireFamily now (doubleRecorded desc A B ida idb)).LabelSet k = 1 ∧
    (expireFamily now (doubleRecorded desc A B ida idb)).Samples = [(idb, B)] ∧
    k ∈ ((expireFamily now (doubleRecorded desc A B ida idb)).LabelSet.filter
        (fun p => decide (0 < p.2))).map Prod.fst ∧
    (∀ p ∈ (expireFamily now (doubleRecorded desc A B ida idb)).Samples,
      k ∉ p.2.Labels.map Prod.fst) := by
  have hsam : (doubleRecorded desc A B ida idb).Samples = [(ida, A), (idb, B)] := by
    unfold doubleRecorded addSample
    simp [assocInsert, hne]
  have hls : countGet (doubleRecorded desc A B ida idb).LabelSet k = 2 := by
    unfold doubleRecorded addSample
    simp only
    rw [countGet_foldAdd 1 B.Labels _ k hnB,
      countGet_foldAdd 1 A.Labels _ k hnA,
      countGet_foldAdd 1 A.Labels _ k hnA]
    simp [hk, hkB, countGet, assocFind]
  have hexpired : (doubleRecorded desc A B ida idb).Samples.filter
      (fun p => decide (now > p.2.Expiration)) = [(ida, A)] := by
    rw [hsam]
    simp [List.filter_cons, hexpA, hfreshB]
  have hkept : (expireFamily now (doubleRecorded desc A B ida idb)).Samples =
      [(idb, B)] := by
    unfold expireFamily
    simp only
    rw [hsam]
    simp [List.filter_cons, hexpA, hfreshB]
  have hcount : countGet (expireFamily now (doubleRecorded desc A B ida idb)).LabelSet k = 1 := by
    unfold expireFamily
    simp only
    rw [hexpired, countGet_foldDec_samples [(ida, A)] _ k (by
      intro p hp
      rw [List.mem_singleton] at hp
      subst hp
      exact hnA), hls]
    simp [List.countP_cons, hk]
  refine ⟨hls, hsam, hcount, hkept, ?_, ?_⟩
  · have hfind : assocFind (expireFamily now (doubleRecorded desc A B ida idb)).LabelSet k =
        some 1 := by
      cases hf : assocFind (expireFamily now (doubleRecorded desc A B ida idb)).LabelSet k with
      | none =>
        exfalso
        have := hcount
        rw [countGet, hf] at this
        simp at this
      | some v =>
        have := hcount
        rw [countGet, hf] at this
        simp at this
        rw [this]
    have hmem := assocFind_mem hfind
    have hmemf : (k, (1 : Int)) ∈ (expireFamily now (doubleRecorded desc A B ida idb)).LabelSet.filter
        (fun p => decide (0 < p.2)) := by
      rw [List.mem_filter]
      exact ⟨hmem, rfl⟩
    exact List.mem_map_of_mem Prod.fst hmemf
  · intro p hp
    rw [hkept, List.mem_singleton] at hp
    subst hp
    exact hkB

/-- Witness for C9 at concrete samples. -/
theorem label_count_leak_witness :
    countGet (doubleRecorded "d" { Labels := [("k", "v")], Expiration := 5 }
        { Labels := [("x", "y")], Expiration := 50 } "a" "b").LabelSet "k" = 2 ∧
    countGet (expireFamily 10 (doubleRecorded "d"
        { Labels := [("k", "v")], Expiration := 5 }
        { Labels := [("x", "y")], Expiration := 50 } "a" "b")).LabelSet "k" = 1 ∧
    "k" ∈ ((expireFamily 10 (doubleRecorded "d"
        { Labels := [("k", "v")], Expiration := 5 }
        { Labels := [("x", "y")], Expiration := 50 } "a" "b")).LabelSet.filter
        (fun p => decide (0 < p.2))).map Prod.fst := by
  have h := label_count_leak 10 "d" { Labels := [("k", "v")], Expiration := 5 }
    { Labels := [("x", "y")], Expiration := 50 } "a" "b" "k"
    (by decide) (by decide) (by decide) (by decide) (by decide) (by decide) (by decide)
  exact ⟨h.1, h.2.2.1, h.2.2.2.2.1⟩

/-! ## Claim C4: regular samples get metric labels plus the pinned label -/

theorem assocFind_metricsFold (tags : List (String × String)) (ms : List String) :
    ∀ (base : List (String × String)) (m : String),
      assocFind (ms.foldl (fun acc label => assocInsert acc label (tagGet tags label)) base) m =
        if m ∈ ms then some (tagGet tags m) else assocFind base m := by
  induction ms with
  | nil => intro base m; simp
  | cons l0 rest ih =>
    intro base m
    simp only [List.foldl_cons]
    rw [ih (assocInsert base l0 (tagGet tags l0)) m]
    by_cases hm : m ∈ rest
    · simp [hm]
    · rw [if_neg hm, assocFind_insert]
      by_cases h0 : l0 = m
      · subst h0
        simp
      · have : m ∉ (l0 :: rest) := by
          intro hc
          rcases List.mem_cons.mp hc with hc | hc
          · exact h0 hc.symm
          · exact hm hc
        simp [h0, this]

theorem statLabels_regular (clusterName : String) (node : Int)
    (dsMetrics : List String) (tags : List (String × String)) (wt : Option String)
    (hwt : wt = none ∨ wt = some W_PINNED) :
    statLabels clusterName node dsMetrics tags wt =
      assocInsert
        (dsMetrics.foldl (fun acc label => assocInsert acc label (tagGet tags label))
          (assocInsert (assocInsert [] "cluster" clusterName) "node" (toString node)))
        "pinned" (if wt = some W_PINNED then "true" else "false") := by
  unfold statLabels
  rcases hwt with h | h <;> subst h <;> simp

/-- The concrete dataset of spec scenario A. -/
def scenarioDs : DsInfoEntry :=
  { CreationTime := 1, Id := 1, Metrics := ["protocol"], Name := "ds1", StatKey := "sk" }

/-- The concrete sample of spec scenario A: all 11 required fields present,
no workload type, protocol "nfs". -/
def scenarioStat : PPStatResult :=
  { BytesIn := 10, BytesOut := 11, Reads := 12, Writes := 13, Ops := 14,
    L2 := 15, L3 := 16, CPU := 17, LatencyRead := 18, LatencyWrite := 19,
    LatencyOther := 20, Node := 1, UnixTime := 100, Protocol := some "nfs" }

/-- The sink of scenario A after the first schema sync. -/
def scenarioSink : PrometheusSink :=
  { clusterName := "mycluster", exports := newExportMap false,
    dsm := (UpdateDatasets false none [scenarioDs]).1, fam := [] }

/-- The records emitted by a collect at time 10 after writing scenario A's
sample at time 0 (expiry 30, so before expiry). -/
def scenarioRecords : List PromRecord :=
  (Collect 10 (WritePPStats (fun _ => .error "off") 0 scenarioSink scenarioDs
      [scenarioStat]).1.fam).2

/-- Claim C4: scenario A — a dataset with metrics ["protocol"], one sample
with the 11 required fields, no workload type and protocol "nfs" — yields,
on a collect before expiry, exactly 11 records (one per fixed field), each
labeled cluster, node, protocol="nfs" and pinned="false"; and in general a
sample with no workload type or the pinned marker gets the dataset's declared
metric labels (looked up from its tags) plus the boolean pinned label. -/
theorem scenarioA_records (clusterName : String) (node : Int)
    (dsMetrics : List String) (tags : List (String × String)) (wt : Option String)
    (hwt : wt = none ∨ wt = some W_PINNED) :
    scenarioRecords.length = 11 ∧
    (∀ r ∈ scenarioRecords,
      r.labelNames = ["cluster", "node", "protocol", "pinned"] ∧
      r.labelValues = ["mycluster", "1", "nfs", "false"]) ∧
    tagGet (statLabels clusterName node dsMetrics tags wt) "pinned" =
      (if wt = some W_PINNED then "true" else "false") ∧
    (∀ m ∈ dsMetrics, m ≠ "pinned" →
      tagGet (statLabels clusterName node dsMetrics tags wt) m = tagGet tags m) := by
  refine ⟨by decide, by decide, ?_, ?_⟩
  · rw [statLabels_regular clusterName node dsMetrics tags wt hwt]
    unfold tagGet
    rw [assocFind_insert]
    simp
  · intro m hm hmp
    have h1 : assocFind (statLabels clusterName node dsMetrics tags wt) m =
        some (tagGet tags m) := by
      rw [statLabels_regular clusterName node dsMetrics tags wt hwt, assocFind_insert,
        if_neg (fun h => hmp h.symm), assocFind_metricsFold, if_pos hm]
    show (assocFind (statLabels clusterName node dsMetrics tags wt) m).getD "" = _
    rw [h1]
    rfl

/-- Witness for C4 at a concrete regular (no workload-type) sample. -/
theorem scenarioA_records_witness :
    scenarioRecords.length = 11 ∧
    tagGet (statLabels "c" 1 ["protocol"] [("protocol", "nfs")] none) "pinned" = "false" ∧
    tagGet (statLabels "c" 1 ["protocol"] [("protocol", "nfs")] none) "protocol" = "nfs" := by
  have h := scenarioA_records "c" 1 ["protocol"] [("protocol", "nfs")] none (Or.inl rfl)
  refine ⟨h.1, ?_, ?_⟩
  · exact h.2.2.1.trans (by decide)
  · exact (h.2.2.2 "protocol" (by decide) (by decide)).trans (by decide)
